import Mathlib

/-!
Verification model of the TEMPEST Ground Station stream processing core.

The source is JavaScript; the model is a shallow embedding:
  * byte buffers (`Uint8Array`) are `List Nat` (each element a byte value);
  * JavaScript strings are also modelled as `List Nat` of character codes
    (`TextDecoder().decode` is modelled as the identity on byte sequences,
    which is exact for the ASCII data the protocol carries);
  * side effects (`logToTerminal`, `writer.write`, download-link creation,
    `console.warn`) are reified as an output list of events;
  * the gzip `DecompressionStream` is an external collaborator and is
    modelled as an oracle parameter `gz : List Nat → Option (List Nat)`
    (`some` = decompression succeeded);
  * `Date.now()` is a `now : Nat` parameter.

Sections follow the source files: serial.js (frame classifier),
imageProcessing.js (image reassembly / retransmission), telemetry.js
(binary telemetry decoder).
-/

/-- Character codes of a Lean string literal, used to write the protocol's
ASCII tags and concrete packets compactly. -/
def sBytes (s : String) : List Nat :=
  s.toList.map Char.toNat

/-- The character test used by both the classifier's packet-end scan and the
image module's regexes: `A-Z a-z 0-9 / + =` (codes 65-90, 97-122, 48-57,
47, 43, 61). -/
def isB64Code (c : Nat) : Bool :=
  (65 ≤ c && c ≤ 90) || (97 ≤ c && c ≤ 122) || (48 ≤ c && c ≤ 57) ||
    c == 47 || c == 43 || c == 61

/-- ASCII decimal digit. -/
def isDigitCode (c : Nat) : Bool :=
  48 ≤ c && c ≤ 57

/-- The whitespace class trimmed by JavaScript's `String.prototype.trim`
(ASCII part plus NBSP and BOM; enough for the byte values the model meets). -/
def jsWhitespace (c : Nat) : Bool :=
  c == 32 || c == 9 || c == 10 || c == 11 || c == 12 || c == 13 ||
    c == 160 || c == 65279

/-- `String.prototype.trim`: drop leading and trailing whitespace. -/
def jsTrim (l : List Nat) : List Nat :=
  ((l.dropWhile jsWhitespace).reverse.dropWhile jsWhitespace).reverse

/-- `new TextDecoder().decode(buf.slice(0,4)).replace(/\0/g, '').trim()`:
the identifier the classifier extracts from the front of the buffer. -/
def identOf (buf : List Nat) : List Nat :=
  jsTrim ((buf.take 4).filter (fun c => c ≠ 0))

/-- The raw (untrimmed) four bytes starting at offset `i`, as compared
against packet identifiers inside the SEND/RETX end-of-packet scan. -/
def raw4 (buf : List Nat) (i : Nat) : List Nat :=
  (buf.drop i).take 4

/-- The telemetry identifiers listed in the SEND-scan's lookahead and in the
binary-packet branch (all except SEND/RETX). -/
def telemetryIdents : List (List Nat) :=
  [sBytes "GYRO", sBytes "ACCL", sBytes "MAGN", sBytes "GRAV", sBytes "EULR",
   sBytes "BMED", sBytes "POLL", sBytes "OBCR", sBytes "OBCD", sBytes "OBCC",
   sBytes "OBCL", sBytes "OBCP", sBytes "ADCS", sBytes "EPSS", sBytes "HOST",
   sBytes "SOLR"]

/-- The identifier list of the binary-packet branch of `processReceivedData`
(`binaryIdentifiers` in the source): telemetry identifiers plus RETX. -/
def binaryIdentifiers : List (List Nat) :=
  telemetryIdents ++ [sBytes "RETX"]

/-- Little-endian 32-bit read at byte offset `off` (`DataView.getUint32`). -/
def le32 (buf : List Nat) (off : Nat) : Nat :=
  buf.getD off 0 + 256 * buf.getD (off + 1) 0 + 65536 * buf.getD (off + 2) 0 +
    16777216 * buf.getD (off + 3) 0

/-- The `packetSizes` table of `getPacketSize` for the fixed-size
identifiers (POLL and RETX are handled separately; unknown ids give 0 via
`|| 0`). -/
def fixedPacketSize (id : List Nat) : Nat :=
  if id = sBytes "GYRO" then 16 else if id = sBytes "ACCL" then 16
  else if id = sBytes "MAGN" then 16 else if id = sBytes "GRAV" then 16
  else if id = sBytes "EULR" then 16 else if id = sBytes "BMED" then 16
  else if id = sBytes "OBCR" then 8 else if id = sBytes "OBCD" then 8
  else if id = sBytes "OBCC" then 8 else if id = sBytes "OBCL" then 234
  else if id = sBytes "OBCP" then 234 else if id = sBytes "ADCS" then 32
  else if id = sBytes "EPSS" then 28 else if id = sBytes "HOST" then 15
  else if id = sBytes "SOLR" then 36 else 0

/-- `getPacketSize(identifier)` from serial.js. POLL's size is `8 + (LE32
length at offset 4)` once 8 bytes are buffered, `-1` before; RETX consumes
`min(buffer length, 256)`; all other known identifiers have a fixed size. -/
def getPacketSize (id : List Nat) (buf : List Nat) : Int :=
  if id = sBytes "POLL" then
    (if 8 ≤ buf.length then ((8 : Int) + le32 buf 4) else (-1))
  else if id = sBytes "RETX" then Int.ofNat (min buf.length 256)
  else Int.ofNat (fixedPacketSize id)

/-- One logical unit extracted by the frame classifier: an image-chunk
packet (handed to `processImagePacket`), a binary telemetry packet
(handed to `unpackCommand`), or a trimmed non-empty text line (handed to
`processTextLine`). -/
inductive Frame where
  | image (packet : List Nat)
  | binary (packet : List Nat)
  | text (line : List Nat)
deriving DecidableEq, Repr

/-- Outcome of one iteration of the `while` loop in `processReceivedData`:
consume a prefix (emitting at most one frame), stop and wait for more
bytes, or discard the whole buffer (overflow protection). -/
inductive StepRes where
  | emit (f : Option Frame) (rest : List Nat)
  | wait
  | discard
deriving DecidableEq, Repr

/-- The SEND/RETX end-of-packet scan: the first index `i` in
`[4, min (len, 1024))` whose byte is not in the base64 alphabet, or at
which another known 4-byte identifier (including SEND/RETX) starts with
`i + 4 ≤ len`. -/
def scanEnd (buf : List Nat) : Option Nat :=
  (List.range' 4 (min buf.length 1024 - 4)).find? fun i =>
    !isB64Code (buf.getD i 0) ||
      (i + 4 ≤ buf.length &&
        (raw4 buf i == sBytes "SEND" || raw4 buf i == sBytes "RETX" ||
          telemetryIdents.contains (raw4 buf i)))

/-- First newline/carriage-return index in `[start, len)`. -/
def newlineFrom (buf : List Nat) (start : Nat) : Option Nat :=
  (List.range' start (buf.length - start)).find? fun i =>
    buf.getD i 0 == 10 || buf.getD i 0 == 13

/-- `packetEnd` of the SEND/RETX branch after both search phases: the scan
result, else (when under 1024 bytes) the first newline after offset 4,
else the whole buffer; `none` exactly when the scan fails on a buffer of
1024 bytes or more. -/
def packetEndOf (buf : List Nat) : Option Nat :=
  match scanEnd buf with
  | some e => some e
  | none =>
    if buf.length < 1024 then
      match newlineFrom buf 4 with
      | some i => some i
      | none => some buf.length
    else none

/-- After extracting an image packet ending at `e`: skip to just past the
first newline at or after `e` (else stay at `e`), then skip any further
run of newline/carriage-return bytes. -/
def afterImagePacket (buf : List Nat) (e : Nat) : List Nat :=
  let skipTo := match newlineFrom buf e with
    | some i => i + 1
    | none => e
  (buf.drop skipTo).dropWhile (fun c => c == 10 || c == 13)

/-- The text-line branch of the classifier loop. -/
def classifyText (buf : List Nat) : StepRes :=
  match buf.findIdx? (fun c => c == 10 || c == 13) with
  | some j =>
    let line := jsTrim (buf.take j)
    let rest := (buf.drop (j + 1)).dropWhile (fun c => c == 10 || c == 13)
    .emit (if line = [] then none else some (.text line)) rest
  | none => if 1024 < buf.length then .discard else .wait

/-- The binary-telemetry branch of the classifier loop, falling through to
the text branch when the identifier is unknown or its size unknown. -/
def classifyBinary (buf : List Nat) : StepRes :=
  if 4 ≤ buf.length ∧ identOf buf ∈ binaryIdentifiers then
    let sz := getPacketSize (identOf buf) buf
    if 0 < sz ∧ sz ≤ (buf.length : Int) then
      .emit (some (.binary (buf.take sz.toNat))) (buf.drop sz.toNat)
    else if 0 < sz then .wait
    else classifyText buf
  else classifyText buf

/-- One iteration of the `while (dataBuffer.length > 0)` loop of
`processReceivedData`: SEND/RETX image-packet branch first, then the
binary-telemetry branch, then the text branch. -/
def classifyStep (buf : List Nat) : StepRes :=
  if 5 ≤ buf.length ∧ (identOf buf = sBytes "SEND" ∨ identOf buf = sBytes "RETX") then
    match packetEndOf buf with
    | some e =>
      if 4 < e then .emit (some (.image (buf.take e))) (afterImagePacket buf e)
      else if buf.length < 1024 then .wait
      else classifyBinary buf
    | none => classifyBinary buf
  else classifyBinary buf

/-- Every consuming step of the classifier leaves a strictly shorter
buffer (the loop's termination measure). -/
theorem classifyStep_emit_shrinks {buf : List Nat} {f : Option Frame}
    {rest : List Nat} (h : classifyStep buf = .emit f rest) :
    rest.length < buf.length := by
  have htext : ∀ b : List Nat, classifyText b = .emit f rest →
      rest.length < b.length := by
    intro b hb
    unfold classifyText at hb
    cases hj : b.findIdx? (fun c => c == 10 || c == 13) with
    | none =>
      rw [hj] at hb
      by_cases h1 : 1024 < b.length <;> simp [h1] at hb
    | some j =>
      rw [hj] at hb
      simp only [StepRes.emit.injEq] at hb
      have hjlt : j < b.length := (List.findIdx?_eq_some_iff_findIdx_eq.mp hj).1
      have h2 : rest.length ≤ (b.drop (j + 1)).length := by
        rw [← hb.2]; exact (List.dropWhile_sublist _).length_le
      simp only [List.length_drop] at h2
      omega
  have hbin : ∀ b : List Nat, classifyBinary b = .emit f rest →
      rest.length < b.length := by
    intro b hb
    unfold classifyBinary at hb
    by_cases h4 : 4 ≤ b.length ∧ identOf b ∈ binaryIdentifiers
    · rw [if_pos h4] at hb
      by_cases hsz : 0 < getPacketSize (identOf b) b ∧
          getPacketSize (identOf b) b ≤ (b.length : Int)
      · rw [if_pos hsz] at hb
        simp only [StepRes.emit.injEq] at hb
        rw [← hb.2]
        have h0 : 0 < (getPacketSize (identOf b) b).toNat := by omega
        simp only [List.length_drop]
        omega
      · rw [if_neg hsz] at hb
        by_cases hpos : 0 < getPacketSize (identOf b) b
        · simp [hpos] at hb
        · rw [if_neg hpos] at hb
          exact htext b hb
    · rw [if_neg h4] at hb
      exact htext b hb
  unfold classifyStep at h
  by_cases h5 : 5 ≤ buf.length ∧
      (identOf buf = sBytes "SEND" ∨ identOf buf = sBytes "RETX")
  · rw [if_pos h5] at h
    cases hpe : packetEndOf buf with
    | some e =>
      rw [hpe] at h
      simp only [] at h
      by_cases he : 4 < e
      · rw [if_pos he] at h
        simp only [StepRes.emit.injEq] at h
        rw [← h.2]
        unfold afterImagePacket
        cases hnl : newlineFrom buf e with
        | some i =>
          simp only [hnl]
          have h2 := (List.dropWhile_sublist (l := buf.drop (i + 1))
            (fun c => c == 10 || c == 13)).length_le
          simp only [List.length_drop] at h2
          omega
        | none =>
          simp only [hnl]
          have h2 := (List.dropWhile_sublist (l := buf.drop e)
            (fun c => c == 10 || c == 13)).length_le
          simp only [List.length_drop] at h2
          omega
      · rw [if_neg he] at h
        by_cases hlt : buf.length < 1024
        · simp [hlt] at h
        · rw [if_neg hlt] at h
          exact hbin buf h
    | none =>
      rw [hpe] at h
      simp only [] at h
      exact hbin buf h
  · rw [if_neg h5] at h
    exact hbin buf h

/-- Result of draining the classifier loop: the frames emitted, the bytes
left buffered, and whether the buffer-overflow discard fired
(`console.warn('Data buffer overflow, clearing buffer')`). -/
structure ClassifierRun where
  frames : List Frame
  buffer : List Nat
  overflow : Bool
deriving DecidableEq, Repr

/-- The `while` loop of `processReceivedData`, drained to quiescence. -/
def processBuffer (buf : List Nat) : ClassifierRun :=
  match h : classifyStep buf with
  | .emit f rest =>
    let r := processBuffer rest
    { r with frames := f.toList ++ r.frames }
  | .wait => ⟨[], buf, false⟩
  | .discard => ⟨[], [], true⟩
termination_by buf.length
decreasing_by exact classifyStep_emit_shrinks h

/-- `processReceivedData(data)`: append the delivery to the carried buffer,
then drain the loop. -/
def processReceivedData (buf data : List Nat) : ClassifierRun :=
  processBuffer (buf ++ data)

/-- Feeding a list of deliveries in order, accumulating extracted frames,
starting from buffer state `buf`. -/
def feedDeliveries (buf : List Nat) : List (List Nat) → List Frame × List Nat
  | [] => ([], buf)
  | d :: ds =>
    let r := processReceivedData buf d
    let t := feedDeliveries r.buffer ds
    (r.frames ++ t.1, t.2)

/-- Log/side-effect messages, each constructor one `logToTerminal` call site
(or `console.warn`) of the source, carrying the data the message
interpolates. -/
inductive Msg where
  | headerWarn
  | response (s : List Nat)
  | tooShort
  | emptyChunk
  | startRecv (id : List Nat) (total : Nat)
  | progress (id : List Nat) (got total : Nat)
  | missingData (id : List Nat)
  | missingChunk (i : Nat) (id : List Nat)
  | invalidB64 (id : List Nat)
  | decodeFail (id : List Nat)
  | gzipMagicWarn
  | decompressFail (id : List Nat)
  | completedMsg (id : List Nat)
  | cleanupMsg (id : List Nat)
  | expecting (filename : List Nat)
  | notConnected
  | noReception (id : List Nat)
  | noMissing (id : List Nat)
  | missingSummary (id : List Nat) (count : Nat)
  | maxAttempts (id : List Nat)
  | requestPlan (count batch : Nat)
  | batchInfo (count len : Nat)
  | cmdTooLong (len reduced : Nat)
  | cannotFit
  | retransComplete (attempts : Nat)
  | timeoutWarn (id : List Nat) (missingCount : Nat)
  | missingList (id : List Nat) (missing : List Nat)
  | manualRetx (filename : List Nat) (sampleIdxs : List Nat)
  | sizeWarn (tag : List Nat) (len : Nat)
  | pollIncomplete (expected got : Nat)
  | unknownTelemetry (id : List Nat)
deriving DecidableEq, Repr

/-- Observable effects of the core: a log entry with its severity class, a
transport write, an LED blink, a completed-image artifact handed to the
output sink (base64 text, compressed bytes, decompressed bytes when
decompression succeeded), a decoded telemetry record (tag and raw payload
bytes at the record's fixed offsets), and the orientation notification. -/
inductive Ev where
  | log (m : Msg) (sev : String)
  | write (bytes : List Nat)
  | blink (led : String)
  | artifact (id : List Nat) (b64 : List Nat) (gzBytes : List Nat)
      (jpg : Option (List Nat))
  | record (tag : List Nat) (payload : List Nat)
  | orientation (payload : List Nat)
deriving DecidableEq, Repr

/-- JavaScript `Map` as an association list in insertion order:
`get`. -/
def mapLookup {α β : Type} [DecidableEq α] (m : List (α × β)) (k : α) :
    Option β :=
  match m with
  | [] => none
  | (a, b) :: t => if a = k then some b else mapLookup t k

/-- JavaScript `Map.set`: replace in place, else append. -/
def mapSet {α β : Type} [DecidableEq α] (m : List (α × β)) (k : α) (v : β) :
    List (α × β) :=
  match m with
  | [] => [(k, v)]
  | (a, b) :: t => if a = k then (k, v) :: t else (a, b) :: mapSet t k v

/-- JavaScript `Map.delete`. -/
def mapDelete {α β : Type} [DecidableEq α] (m : List (α × β)) (k : α) :
    List (α × β) :=
  match m with
  | [] => []
  | (a, b) :: t => if a = k then t else (a, b) :: mapDelete t k

/-- One entry of `imageReceptions`: the per-image reception record. -/
structure ImageInfo where
  totalChunks : Nat
  receivedChunks : List Nat
  startTime : Nat
  lastPacketTime : Nat
  retransmitAttempts : Nat
  filename : List Nat
deriving DecidableEq, Repr

/-- The image module's global state: `imageReceptions`, `imagePacketBuffer`
(both keyed by image id) and `currentImageFilename`. -/
structure ImgState where
  imageReceptions : List (List Nat × ImageInfo)
  imagePacketBuffer : List (List Nat × List (Nat × List Nat))
  currentImageFilename : Option (List Nat)
deriving DecidableEq, Repr

/-- The initial state of imageProcessing.js. -/
def emptyImgState : ImgState :=
  ⟨[], [], none⟩

/-- `validEnd` of `processImagePacket`: the scan from the last index down
to 4 keeps setting `validEnd := i` while the byte is outside the
`[A-Za-z0-9/+=]` class and stops at the first valid byte, so the result is
the packet length minus the trailing run of invalid bytes (never going
below index 4). -/
def validEndOf (s : List Nat) : Nat :=
  s.length - ((s.drop 4).reverse.takeWhile (fun c => !isB64Code c)).length

/-- `parseInt` on a digit string. -/
def natOfDigits (l : List Nat) : Nat :=
  l.foldl (fun a c => a * 10 + (c - 48)) 0

/-- Decimal digits, structurally recursive on a fuel bound (so that the
kernel can evaluate it; `fuel > n` always suffices since the recursion
divides by 10). -/
def natDigitsAux (fuel n : Nat) : List Nat :=
  match fuel with
  | 0 => []
  | fuel + 1 => if n < 10 then [48 + n] else natDigitsAux fuel (n / 10) ++ [48 + n % 10]

/-- Decimal digits of `n` as character codes (JavaScript number-to-string
for a nonnegative integer, as used in template literals and `join`). -/
def natDigits (n : Nat) : List Nat :=
  natDigitsAux (n + 1) n

/-- How `processImagePacket` classifies a packet before touching any state:
not SEND/RETX-headed, reclassified as a command response (the trimmed
`slice(4, validEnd)` to log), one of the two unreachable warning branches
kept for faithfulness, or a valid chunk with its parsed metadata. -/
inductive ChunkParse where
  | notSendRetx
  | reclassify (resp : List Nat)
  | tooShortWarn
  | emptyChunkWarn
  | chunk (total cur : Nat) (data : List Nat)
deriving DecidableEq, Repr

/-- The metadata-parsing prefix of `processImagePacket` (lines 25-115 of
imageProcessing.js), decomposed from the state-updating suffix: header
check, `validEnd` scan, the `validEnd <= 12` short-response test, the
`/^\d{8}$/` metadata test, the dead `validEnd < 13` branch, metadata
validation (`total > 0`, `0 <= current < total`), and chunk extraction. -/
def parseChunkMeta (s : List Nat) : ChunkParse :=
  if ¬(s.take 4 = sBytes "SEND" ∨ s.take 4 = sBytes "RETX") then .notSendRetx
  else
    let ve := validEndOf s
    if ve ≤ 12 then .reclassify (jsTrim ((s.take ve).drop 4))
    else
      let meta := (s.take ve).drop (ve - 8)
      if ¬(meta.length = 8 ∧ meta.all isDigitCode) then
        .reclassify (jsTrim ((s.take ve).drop 4))
      else if ve < 13 then .tooShortWarn
      else
        let total := natOfDigits (meta.take 4)
        let cur := natOfDigits (meta.drop 4)
        if total = 0 then .reclassify (jsTrim ((s.take ve).drop 4))
        else if total ≤ cur then .reclassify (jsTrim ((s.take ve).drop 4))
        else
          let data := (s.take (ve - 8)).drop 4
          if data = [] then .emptyChunkWarn
          else .chunk total cur data

/-- `findOrCreateImageReception`: look for an existing reception with the
same declared total (first match in insertion order); else create one named
`img_<total>` (first chunk) or `img_<total>_<now>` (out-of-order start),
with filename `currentImageFilename || image_<total>.jpg.gz`. Returns the
log events, the id, its info, its packet buffer and the updated state. -/
def findOrCreateImageReception (now : Nat) (st : ImgState) (total cur : Nat) :
    List Ev × List Nat × ImageInfo × List (Nat × List Nat) × ImgState :=
  match st.imageReceptions.find? (fun e => e.2.totalChunks == total) with
  | some (id, info) =>
    ([], id, info, (mapLookup st.imagePacketBuffer id).getD [], st)
  | none =>
    let id := if cur = 0 then sBytes "img_" ++ natDigits total
      else sBytes "img_" ++ natDigits total ++ sBytes "_" ++ natDigits now
    let info : ImageInfo :=
      { totalChunks := total, receivedChunks := [], startTime := now,
        lastPacketTime := now, retransmitAttempts := 0,
        filename := st.currentImageFilename.getD
          (sBytes "image_" ++ natDigits total ++ sBytes ".jpg.gz") }
    ([.log (.startRecv id total) "info"], id, info, [],
     { st with imageReceptions := mapSet st.imageReceptions id info,
               imagePacketBuffer := mapSet st.imagePacketBuffer id [] })

/-- `setCurrentImageFilename(filename)`: store `filename + '.chunked'`. -/
def setCurrentImageFilename (st : ImgState) (filename : List Nat) :
    List Ev × ImgState :=
  ([.log (.expecting filename) "info"],
   { st with currentImageFilename := some (filename ++ sBytes ".chunked") })

/-- `chunk.replace(/=+$/, '')`: strip the trailing run of `=`. -/
def stripTrailingEq (l : List Nat) : List Nat :=
  (l.reverse.dropWhile (fun c => c == 61)).reverse

/-- The reconstruction loop of `completeImageReception`: chunks in index
order `0..total-1`, stripping trailing `=` from every chunk but the last;
`error i` at the first index missing from the packet buffer. -/
def reconstructData (total : Nat) (pbuf : List (Nat × List Nat)) :
    Except Nat (List Nat) :=
  go 0 total
where
  go (i fuel : Nat) : Except Nat (List Nat) :=
    match fuel with
    | 0 => .ok []
    | fuel + 1 =>
      match mapLookup pbuf i with
      | none => .error i
      | some chunk =>
        let c := if i < total - 1 then stripTrailingEq chunk else chunk
        match go (i + 1) fuel with
        | .error j => .error j
        | .ok rest => .ok (c ++ rest)

/-- The `/^[A-Za-z0-9+/]*={0,2}$/` validation: at most two trailing `=`,
everything before them in the padding-free base64 alphabet. -/
def checkB64Strict (l : List Nat) : Bool :=
  let pad := l.reverse.takeWhile (fun c => c == 61)
  let core := (l.reverse.dropWhile (fun c => c == 61)).reverse
  pad.length ≤ 2 && core.all (fun c => isB64Code c && c ≠ 61)

/-- Base64 sextet value of an alphabet character. -/
def b64Sextet (c : Nat) : Nat :=
  if 65 ≤ c ∧ c ≤ 90 then c - 65
  else if 97 ≤ c ∧ c ≤ 122 then c - 71
  else if 48 ≤ c ∧ c ≤ 57 then c + 4
  else if c = 43 then 62
  else if c = 47 then 63
  else 0

/-- Base64 group decoding: 4 sextets to 3 bytes, a final 2/3-character
group to 1/2 bytes (leftover bits discarded). -/
def b64DecodeGroups : List Nat → List Nat
  | a :: b :: c :: d :: rest =>
    (b64Sextet a * 4 + b64Sextet b / 16) ::
      ((b64Sextet b % 16) * 16 + b64Sextet c / 4) ::
      ((b64Sextet c % 4) * 64 + b64Sextet d) :: b64DecodeGroups rest
  | [a, b] => [b64Sextet a * 4 + b64Sextet b / 16]
  | [a, b, c] =>
    [b64Sextet a * 4 + b64Sextet b / 16, (b64Sextet b % 16) * 16 + b64Sextet c / 4]
  | _ => []

/-- Strip one or two trailing `=` (the padding step of forgiving-base64). -/
def stripPad2 (s : List Nat) : List Nat :=
  let r := s.reverse
  let r := if r.headD 0 == 61 then r.tail else r
  let r := if r.headD 0 == 61 then r.tail else r
  r.reverse

/-- The browser's `atob` (WHATWG forgiving-base64 decode): remove ASCII
whitespace; when the length is a multiple of 4 strip up to two trailing
`=`; fail when the remaining length is `1 mod 4` or a character is outside
the padding-free alphabet; else decode. -/
def atob (l : List Nat) : Option (List Nat) :=
  let s0 := l.filter (fun c => !(c == 9 || c == 10 || c == 12 || c == 13 || c == 32))
  let s := if s0.length % 4 = 0 then stripPad2 s0 else s0
  if s.length % 4 = 1 then none
  else if !s.all (fun c => isB64Code c && c ≠ 61) then none
  else some (b64DecodeGroups s)

/-- `completeImageReception(imageId)`. The gzip `DecompressionStream` is
the oracle `gz`; on its success the artifact carries both buffers and the
reception and its chunk store are deleted; on its failure (the
`decompressError` path) only the compressed buffer is exposed and nothing
is deleted. The reconstruction-integrity failures (missing chunk, invalid
base64, `atob` failure) report and leave the state untouched. -/
def completeImageReception (gz : List Nat → Option (List Nat))
    (st : ImgState) (imageId : List Nat) : List Ev × ImgState :=
  match mapLookup st.imageReceptions imageId,
      mapLookup st.imagePacketBuffer imageId with
  | some info, some pbuf =>
    (match reconstructData info.totalChunks pbuf with
     | .error i => ([.log (.missingChunk i imageId) "error"], st)
     | .ok recon =>
       if !checkB64Strict recon then ([.log (.invalidB64 imageId) "error"], st)
       else
         match atob recon with
         | none => ([.log (.decodeFail imageId) "error"], st)
         | some bytes =>
           let warnMagic :=
             if bytes.length < 2 || bytes.getD 0 0 ≠ 31 || bytes.getD 1 0 ≠ 139
             then [Ev.log .gzipMagicWarn "warning"] else []
           match gz bytes with
           | some jpg =>
             (warnMagic ++ [.log (.completedMsg imageId) "response",
                            .artifact imageId recon bytes (some jpg),
                            .log (.cleanupMsg imageId) "info"],
              { st with imageReceptions := mapDelete st.imageReceptions imageId,
                        imagePacketBuffer := mapDelete st.imagePacketBuffer imageId })
           | none =>
             (warnMagic ++ [.log (.decompressFail imageId) "warning",
                            .log (.completedMsg imageId) "response",
                            .artifact imageId recon bytes none], st))
  | _, _ => ([.log (.missingData imageId) "error"], st)

/-- Storing a fresh chunk: record the payload under its index, add the
index to the received set, refresh the last-activity time. -/
def storeChunk (now : Nat) (st1 : ImgState) (id : List Nat)
    (info : ImageInfo) (pbuf : List (Nat × List Nat)) (cur : Nat)
    (data : List Nat) : ImgState :=
  { st1 with
    imageReceptions := mapSet st1.imageReceptions id
      { info with receivedChunks := info.receivedChunks ++ [cur],
                  lastPacketTime := now },
    imagePacketBuffer := mapSet st1.imagePacketBuffer id (mapSet pbuf cur data) }

/-- `processImagePacket(packet)`: parse, then find-or-create the reception
keyed by total, drop silent duplicates, store the chunk, refresh
last-activity, log progress on every 50th/first/last chunk, and trigger
completion when `received.size == total` (the size after the insertion is
the old size plus one, the index being fresh). -/
def processImagePacket (gz : List Nat → Option (List Nat)) (now : Nat)
    (st : ImgState) (packet : List Nat) : List Ev × ImgState :=
  match parseChunkMeta packet with
  | .notSendRetx => ([.log .headerWarn "warning"], st)
  | .tooShortWarn => ([.log .tooShort "warning"], st)
  | .emptyChunkWarn => ([.log .emptyChunk "warning"], st)
  | .reclassify r => (if r = [] then [] else [.log (.response r) "response"], st)
  | .chunk total cur data =>
    match findOrCreateImageReception now st total cur with
    | (evs0, id, info, pbuf, st1) =>
      if info.receivedChunks.contains cur then (evs0, st1)
      else
        let st2 := storeChunk now st1 id info pbuf cur data
        let evs1 := if cur % 50 = 0 ∨ cur = 0 ∨ cur = total - 1 then
            [Ev.log (.progress id (info.receivedChunks.length + 1) total)
              "response"]
          else []
        if info.receivedChunks.length + 1 = total then
          match completeImageReception gz st2 id with
          | (evs2, st3) => (evs0 ++ evs1 ++ evs2, st3)
        else (evs0 ++ evs1, st2)

/-- The ascending list of indices in `[0, total)` not yet received. -/
def missingOf (info : ImageInfo) : List Nat :=
  (List.range info.totalChunks).filter (fun i => !info.receivedChunks.contains i)

/-- `checkMissingPackets(imageId)`: the missing-index list, logging a
summary when non-empty. -/
def checkMissingPackets (st : ImgState) (imageId : List Nat) :
    List Ev × List Nat :=
  match mapLookup st.imageReceptions imageId with
  | none => ([.log (.noReception imageId) "warning"], [])
  | some info =>
    (if 0 < (missingOf info).length then
       [.log (.missingSummary imageId (missingOf info).length) "warning"] else [],
     missingOf info)

/-- `str.replace(pat, '')` for a single occurrence: remove the first
occurrence of `pat`. -/
def removeFirstOcc (l pat : List Nat) : List Nat :=
  match l with
  | [] => []
  | c :: t => if pat.isPrefixOf (c :: t) then (c :: t).drop pat.length
              else c :: removeFirstOcc t pat

/-- `RETRANSMIT <filename> <idx> <idx> ...` (space-joined indices). -/
def mkRetransmitCmd (fn : List Nat) (idxs : List Nat) : List Nat :=
  sBytes "RETRANSMIT " ++ fn ++ sBytes " " ++ joinSp (idxs.map natDigits)
where
  joinSp : List (List Nat) → List Nat
    | [] => []
    | [x] => x
    | x :: rest => x ++ [32] ++ joinSp rest

/-- The batching loop of `requestRetransmission` over the missing list:
take `m` indices (`maxPacketsPerCommand`), send if the command fits the
59-byte body budget, else halve the batch and retry once (skipping the
batch with an error when even that fails). The source's index arithmetic
(`i -= maxPacketsPerCommand; i += safePacketCount`) is the `drop safeCount`
recursion. `m ≥ 1` at every call site (`Math.max(1, …)`), so the fuel
`missing.length` suffices: every iteration consumes at least one index. -/
def retxLoop (fn : List Nat) (m : Nat) : Nat → List Nat → List Ev
  | 0, _ => []
  | _, [] => []
  | fuel + 1, i :: rest =>
    let chunk := (i :: rest).take m
    let cmd := mkRetransmitCmd fn chunk
    if 59 < cmd.length then
      let safeCount := max 1 (chunk.length / 2)
      let safe := chunk.take safeCount
      let scmd := mkRetransmitCmd fn safe
      Ev.log (.cmdTooLong cmd.length safeCount) "warning" ::
        (if 59 < scmd.length then
           Ev.log .cannotFit "error" :: retxLoop fn m fuel ((i :: rest).drop m)
         else
           Ev.write (scmd ++ [10]) :: Ev.blink "rfm95TxLed" ::
             retxLoop fn m fuel ((i :: rest).drop safeCount))
    else
      Ev.log (.batchInfo chunk.length cmd.length) "command" ::
        Ev.blink "rfm95TxLed" :: Ev.write (cmd ++ [10]) ::
          retxLoop fn m fuel ((i :: rest).drop m)

/-- `maxPacketsPerCommand`: the 60-byte budget minus the fixed prefix
`RETRANSMIT <filename> ` and the newline, at the conservative 5 bytes per
index, floored and clamped to at least 1 (`Math.max(1, ...)`; natural
subtraction gives the same 1 for an over-long filename as JavaScript's
negative quotient). -/
def maxPacketsPerCommand (fn : List Nat) : Nat :=
  max 1 ((60 - (sBytes "RETRANSMIT " ++ fn ++ sBytes " ").length - 1) / 5)

/-- `requestRetransmission(imageId, missingPackets)`: compute or accept the
missing set, bump and gate the attempt counter, compute
`maxPacketsPerCommand` from the 60-byte budget with the 5-bytes-per-index
estimate (`Math.max(1, …)` makes a negative budget give 1, as does natural
subtraction here), and run the batching loop. `writerOk` models
`if (!writer)`. -/
def requestRetransmission (writerOk : Bool)
    (st : ImgState) (imageId : List Nat) (missingPackets : Option (List Nat)) :
    List Ev × ImgState :=
  if !writerOk then ([.log .notConnected "error"], st)
  else
    let cm := match missingPackets with
      | some m => (([] : List Ev), m)
      | none => checkMissingPackets st imageId
    let evs0 := cm.1
    let missing := cm.2
    if missing.length = 0 then (evs0 ++ [.log (.noMissing imageId) "info"], st)
    else
      match mapLookup st.imageReceptions imageId with
      | some info =>
        let info1 := { info with retransmitAttempts := info.retransmitAttempts + 1 }
        let st1 := { st with imageReceptions := mapSet st.imageReceptions imageId info1 }
        if 3 < info1.retransmitAttempts then
          (evs0 ++ [.log (.maxAttempts imageId) "warning"], st1)
        else
          let fn := if info1.filename = [] then
              sBytes "image_" ++ removeFirstOcc imageId (sBytes "img_") ++
                sBytes ".jpg.gz.chunked"
            else info1.filename
          let m := maxPacketsPerCommand fn
          (evs0 ++ [.log (.requestPlan missing.length m) "info"] ++
             retxLoop fn m missing.length missing ++
             [.log (.retransComplete info1.retransmitAttempts) "info"], st1)
      | none =>
        let fn := sBytes "image_" ++ removeFirstOcc imageId (sBytes "img_") ++
          sBytes ".jpg.gz.chunked"
        let m := maxPacketsPerCommand fn
        (evs0 ++ [.log (.requestPlan missing.length m) "info"] ++
           retxLoop fn m missing.length missing ++
           [.log (.retransComplete 1) "info"], st)

/-- One reception's share of the 10-second timeout sweep: when the last
activity is more than 30 s old and chunks are missing, report the stall,
the missing indices and a ready-to-send manual `RETRANSMIT` command using
the reception's stored filename, then refresh the timestamp. -/
def imageTimeoutStep (now : Nat) (st : ImgState) (id : List Nat) :
    List Ev × ImgState :=
  match mapLookup st.imageReceptions id with
  | none => ([], st)
  | some info =>
    if 30000 < now - info.lastPacketTime then
      let cm := checkMissingPackets st id
      if 0 < cm.2.length then
        let fn := if info.filename = [] then
            sBytes "image_" ++ removeFirstOcc id (sBytes "img_") ++
              sBytes ".jpg.gz.chunked"
          else info.filename
        (cm.1 ++ [.log (.timeoutWarn id cm.2.length) "warning",
                  .log (.missingList id cm.2) "info",
                  .log (.manualRetx fn (cm.2.take 4)) "info"],
         { st with imageReceptions :=
             mapSet st.imageReceptions id { info with lastPacketTime := now } })
      else (cm.1, st)
    else ([], st)

/-- One firing of the interval callback installed by
`startImageTimeoutChecker`: sweep all open receptions. -/
def startImageTimeoutChecker (now : Nat) (st : ImgState) :
    List Ev × ImgState :=
  (st.imageReceptions.map Prod.fst).foldl
    (fun acc id =>
      let r := imageTimeoutStep now acc.2 id
      (acc.1 ++ r.1, r.2))
    ([], st)

/-- Global accumulation state of telemetry.js / main.js: `pollBuffer` and
`obclDataArray`. -/
structure TelState where
  pollBuffer : List Nat
  obclDataArray : List (List Nat)
deriving DecidableEq, Repr

/-- Initial telemetry state (`new Uint8Array()`, `[]`). -/
def emptyTelState : TelState :=
  ⟨[], []⟩

/-- `data.slice(a, b)` then `.replace(/\0/g, '').trim()`: the NUL-stripped
trimmed text field used by the text-carrying unpackers. -/
def textField (data : List Nat) (a b : Nat) : List Nat :=
  jsTrim (((data.take b).drop a).filter (fun c => c ≠ 0))

/-- `unpackSensorData` (GYRO/ACCL/MAGN/GRAV/EULR): 16-byte packet, three
little-endian float32 fields after the tag; undersized packets warn and
drop. The record carries the 12 payload bytes (the three floats' byte
representation). -/
def unpackSensorData (id : List Nat) (data : List Nat) : List Ev :=
  if data.length < 16 then [.log (.sizeWarn id data.length) "warning"]
  else [.record id ((data.take 16).drop 4)]

/-- `unpackBMEData`: 16-byte environment packet. -/
def unpackBMEData (data : List Nat) : List Ev :=
  if data.length < 16 then [.log (.sizeWarn (sBytes "BMED") data.length) "warning"]
  else [.record (sBytes "BMED") ((data.take 16).drop 4)]

/-- `unpackPollData`: 4-byte LE payload length at offset 4, payload
appended to the global `pollBuffer`; when 64 bytes have accumulated, emit
one 16-float record (the first 64 buffered bytes) and clear the buffer. -/
def unpackPollData (st : TelState) (data : List Nat) : List Ev × TelState :=
  if data.length < 8 then
    ([.log (.sizeWarn (sBytes "POLL") data.length) "warning"], st)
  else
    let payloadLength := le32 data 4
    if data.length < 8 + payloadLength then
      ([.log (.pollIncomplete (8 + payloadLength) data.length) "warning"], st)
    else
      let newBuffer := st.pollBuffer ++ ((data.take (8 + payloadLength)).drop 8)
      if 64 ≤ newBuffer.length then
        ([.record (sBytes "POLL") (newBuffer.take 64)],
         { st with pollBuffer := [] })
      else ([], { st with pollBuffer := newBuffer })

/-- `unpackOBCSingleValue` (OBCR/OBCD/OBCC): 8-byte packet, one float. -/
def unpackOBCSingleValue (id : List Nat) (data : List Nat) : List Ev :=
  if data.length < 8 then [.log (.sizeWarn id data.length) "warning"]
  else [.record id ((data.take 8).drop 4)]

/-- `unpackOBCFileListing` (OBCL): 234-byte packet, 230-byte NUL-trimmed
text. -/
def unpackOBCFileListing (data : List Nat) : List Ev :=
  if data.length < 234 then [.log (.sizeWarn (sBytes "OBCL") data.length) "warning"]
  else [.record (sBytes "OBCL") (textField data 4 234)]

/-- `str.includes(pat)`: some contiguous occurrence of `pat`. -/
def listIncludes (l pat : List Nat) : Bool :=
  decide (pat <:+: l)

/-- `unpackOBCProcesses` (OBCP): 234-byte packet; the text accumulates in
`obclDataArray` until a piece contains `END` (or is empty), then one
process-list record of the joined pieces is emitted and the array is
cleared. -/
def unpackOBCProcesses (st : TelState) (data : List Nat) : List Ev × TelState :=
  if data.length < 234 then
    ([.log (.sizeWarn (sBytes "OBCP") data.length) "warning"], st)
  else
    let processData := textField data 4 234
    let arr := st.obclDataArray ++ [processData]
    if listIncludes processData (sBytes "END") || processData.length = 0 then
      ([.record (sBytes "OBCP") arr.flatten], { st with obclDataArray := [] })
    else ([], { st with obclDataArray := arr })

/-- `unpackADCSData`: 32-byte packet of seven floats; also notifies the
orientation sink with the first three. -/
def unpackADCSData (data : List Nat) : List Ev :=
  if data.length < 32 then [.log (.sizeWarn (sBytes "ADCS") data.length) "warning"]
  else [.record (sBytes "ADCS") ((data.take 32).drop 4),
        .orientation ((data.take 16).drop 4)]

/-- `unpackEPSStatus`: 28-byte packet of five int32 and one float32. -/
def unpackEPSStatus (data : List Nat) : List Ev :=
  if data.length < 28 then [.log (.sizeWarn (sBytes "EPSS") data.length) "warning"]
  else [.record (sBytes "EPSS") ((data.take 28).drop 4)]

/-- `unpackHostname` (HOST): 15-byte packet, 11-byte NUL-trimmed text. -/
def unpackHostname (data : List Nat) : List Ev :=
  if data.length < 15 then [.log (.sizeWarn (sBytes "HOST") data.length) "warning"]
  else [.record (sBytes "HOST") (textField data 4 15)]

/-- `unpackSolarData` (SOLR): 36-byte packet of four voltage/current
pairs. -/
def unpackSolarData (data : List Nat) : List Ev :=
  if data.length < 36 then [.log (.sizeWarn (sBytes "SOLR") data.length) "warning"]
  else [.record (sBytes "SOLR") ((data.take 36).drop 4)]

/-- `unpackRetransmitData` (RETX): remaining bytes as trimmed text, no
length check. -/
def unpackRetransmitData (data : List Nat) : List Ev :=
  [.record (sBytes "RETX") (textField data 4 data.length)]

/-- `unpackCommand(data)`: route a binary packet on its NUL-stripped
trimmed 4-byte identifier. Packets under 4 bytes return silently; unknown
identifiers only `console.debug`. Total by construction, matching the
enclosing `try`/`catch`: no exception escapes. -/
def unpackCommand (st : TelState) (data : List Nat) : List Ev × TelState :=
  if data.length < 4 then ([], st)
  else
    let id := identOf data
    if id = sBytes "GYRO" ∨ id = sBytes "ACCL" ∨ id = sBytes "MAGN" ∨
        id = sBytes "GRAV" ∨ id = sBytes "EULR" then
      (unpackSensorData id data, st)
    else if id = sBytes "BMED" then (unpackBMEData data, st)
    else if id = sBytes "POLL" then unpackPollData st data
    else if id = sBytes "OBCR" ∨ id = sBytes "OBCD" ∨ id = sBytes "OBCC" then
      (unpackOBCSingleValue id data, st)
    else if id = sBytes "OBCL" then (unpackOBCFileListing data, st)
    else if id = sBytes "OBCP" then unpackOBCProcesses st data
    else if id = sBytes "ADCS" then (unpackADCSData data, st)
    else if id = sBytes "EPSS" then (unpackEPSStatus data, st)
    else if id = sBytes "HOST" then (unpackHostname data, st)
    else if id = sBytes "SOLR" then (unpackSolarData data, st)
    else if id = sBytes "RETX" then (unpackRetransmitData data, st)
    else ([.log (.unknownTelemetry id) "debug"], st)

/-- Zero-padded 4-digit decimal field, the wire format of the trailing
chunk metadata (`total=0005`, `current=0003`). -/
def pad4 (n : Nat) : List Nat :=
  [48 + n / 1000 % 10, 48 + n / 100 % 10, 48 + n / 10 % 10, 48 + n % 10]

/-- A well-formed image-chunk packet: SEND header, payload, 4-digit total,
4-digit current index. -/
def mkChunkPacket (pay : List Nat) (total cur : Nat) : List Nat :=
  sBytes "SEND" ++ pay ++ pad4 total ++ pad4 cur

/-- Deliver a list of image packets to `processImagePacket` in order,
accumulating events. -/
def runImagePackets (gz : List Nat → Option (List Nat)) (now : Nat)
    (st : ImgState) : List (List Nat) → List Ev × ImgState
  | [] => ([], st)
  | p :: ps =>
    let r := processImagePacket gz now st p
    let t := runImagePackets gz now r.2 ps
    (r.1 ++ t.1, t.2)

/-- The completed-image artifacts among a list of events. -/
def artifactsOf (evs : List Ev) : List (List Nat × List Nat) :=
  evs.filterMap fun e =>
    match e with
    | .artifact id b64 _ _ => some (id, b64)
    | _ => none

/-- The transport writes among a list of events. -/
def writesOf (evs : List Ev) : List (List Nat) :=
  evs.filterMap fun e =>
    match e with
    | .write b => some b
    | _ => none

/-! ### Facts about `validEndOf` and `parseChunkMeta` -/

theorem validEndOf_le (s : List Nat) : validEndOf s ≤ s.length := by
  unfold validEndOf
  omega

theorem length_ge_four_of_take {s : List Nat} (t : List Nat)
    (ht : t.length = 4) (h : s.take 4 = t) : 4 ≤ s.length := by
  have := congrArg List.length h
  simp [ht] at this
  omega

theorem validEndOf_ge_four {s : List Nat} (h4 : 4 ≤ s.length) :
    4 ≤ validEndOf s := by
  unfold validEndOf
  have h1 : ((s.drop 4).reverse.takeWhile (fun c => !isB64Code c)).length ≤
      (s.drop 4).length := by
    calc ((s.drop 4).reverse.takeWhile (fun c => !isB64Code c)).length
        ≤ (s.drop 4).reverse.length := (List.takeWhile_sublist _).length_le
      _ = (s.drop 4).length := List.length_reverse _
  simp only [List.length_drop] at h1
  omega

/-- Whether `parseChunkMeta` reclassified the packet as a command
response. -/
def isReclassify : ChunkParse → Bool
  | .reclassify _ => true
  | _ => false

theorem meta_length {s : List Nat} (hve : 12 < validEndOf s) :
    (((s.take (validEndOf s)).drop (validEndOf s - 8)).length = 8) := by
  have h1 := validEndOf_le s
  simp only [List.length_drop, List.length_take]
  omega

theorem chunkData_length {s : List Nat} (hve13 : 13 ≤ validEndOf s) :
    ((s.take (validEndOf s - 8)).drop 4).length = validEndOf s - 12 := by
  have h1 := validEndOf_le s
  simp only [List.length_drop, List.length_take]
  omega

/-- C3 (amended: the short-tail threshold is 9 characters after the tag,
not 13): a SEND/RETX frame is reclassified as a plain command-response
string handed to the log sink — with no reception created or modified and
no error raised — exactly when the valid tail after the 4-byte tag is
shorter than 9 characters, or the last 8 characters of the valid portion
are not all digits, or the parsed metadata fails validation
(`total > 0` and `0 ≤ current < total`). -/
theorem c3_reclassified_iff (s : List Nat)
    (hhdr : s.take 4 = sBytes "SEND" ∨ s.take 4 = sBytes "RETX") :
    (isReclassify (parseChunkMeta s) = true ↔
      (validEndOf s - 4 < 9 ∨
        ¬(((s.take (validEndOf s)).drop (validEndOf s - 8)).all isDigitCode = true) ∨
        natOfDigits (((s.take (validEndOf s)).drop (validEndOf s - 8)).take 4) = 0 ∨
        natOfDigits (((s.take (validEndOf s)).drop (validEndOf s - 8)).take 4) ≤
          natOfDigits (((s.take (validEndOf s)).drop (validEndOf s - 8)).drop 4))) ∧
    (∀ r, parseChunkMeta s = .reclassify r →
      ∀ gz now st, processImagePacket gz now st s =
        ((if r = [] then [] else [.log (.response r) "response"]), st)) := by
  constructor
  · have h4 : 4 ≤ s.length := by
      rcases hhdr with h | h
      · exact length_ge_four_of_take (sBytes "SEND") (by decide) h
      · exact length_ge_four_of_take (sBytes "RETX") (by decide) h
    have hge4 : 4 ≤ validEndOf s := validEndOf_ge_four h4
    unfold parseChunkMeta
    rw [if_neg (not_not_intro hhdr)]
    by_cases h12 : validEndOf s ≤ 12
    · rw [if_pos h12]
      exact iff_of_true (by simp [isReclassify]) (Or.inl (by omega))
    · rw [if_neg h12]
      have hml : ((s.take (validEndOf s)).drop (validEndOf s - 8)).length = 8 :=
        meta_length (by omega)
      by_cases hdig :
          ((s.take (validEndOf s)).drop (validEndOf s - 8)).all isDigitCode = true
      · rw [if_neg (by simp [hml, hdig])]
        rw [if_neg (by omega)]
        by_cases ht0 :
            natOfDigits (((s.take (validEndOf s)).drop (validEndOf s - 8)).take 4) = 0
        · rw [if_pos ht0]
          exact iff_of_true (by simp [isReclassify]) (Or.inr (Or.inr (Or.inl ht0)))
        · rw [if_neg ht0]
          by_cases hcur :
              natOfDigits (((s.take (validEndOf s)).drop (validEndOf s - 8)).take 4) ≤
                natOfDigits (((s.take (validEndOf s)).drop (validEndOf s - 8)).drop 4)
          · rw [if_pos hcur]
            exact iff_of_true (by simp [isReclassify])
              (Or.inr (Or.inr (Or.inr hcur)))
          · rw [if_neg hcur]
            have hdata : ((s.take (validEndOf s - 8)).drop 4) ≠ [] := by
              have := chunkData_length (s := s) (by omega)
              intro hnil
              rw [hnil] at this
              simp at this
              omega
            rw [if_neg hdata]
            refine iff_of_false (by simp [isReclassify]) ?_
            push_neg
            exact ⟨by omega, hdig, ht0, by omega⟩
      · rw [if_pos (by simp [hdig])]
        exact iff_of_true (by simp [isReclassify]) (Or.inr (Or.inl hdig))
  · intro r hr gz now st
    unfold processImagePacket
    rw [hr]

/-! ### Well-formed chunk packets parse back to their metadata -/

theorem pad4_all_digits (n : Nat) : (pad4 n).all isDigitCode = true := by
  simp only [pad4, List.all_cons, List.all_nil, Bool.and_true, isDigitCode,
    Bool.and_eq_true, decide_eq_true_eq]
  omega

theorem natOfDigits_pad4 {n : Nat} (h : n < 10000) :
    natOfDigits (pad4 n) = n := by
  simp only [pad4, natOfDigits, List.foldl_cons, List.foldl_nil]
  omega

theorem mkChunkPacket_length (pay : List Nat) (total cur : Nat) :
    (mkChunkPacket pay total cur).length = pay.length + 12 := by
  simp [mkChunkPacket, pad4, sBytes]

theorem validEndOf_mkChunkPacket (pay : List Nat) (total cur : Nat) :
    validEndOf (mkChunkPacket pay total cur) =
      (mkChunkPacket pay total cur).length := by
  unfold validEndOf
  have hdrop : (mkChunkPacket pay total cur).drop 4 =
      pay ++ pad4 total ++ pad4 cur := by
    simp only [mkChunkPacket, List.append_assoc]
    exact List.drop_left' (by decide)
  rw [hdrop]
  have hrev : (pay ++ pad4 total ++ pad4 cur).reverse =
      (48 + cur % 10) :: ((48 + cur / 10 % 10) :: (48 + cur / 100 % 10) ::
        (48 + cur / 1000 % 10) :: ((pad4 total).reverse ++ pay.reverse)) := by
    simp [pad4, List.reverse_append]
  rw [hrev]
  have hb : isB64Code (48 + cur % 10) = true := by
    simp only [isB64Code, Bool.or_eq_true, Bool.and_eq_true, decide_eq_true_eq,
      beq_iff_eq]
    omega
  rw [List.takeWhile_cons_of_neg (by simp [hb])]
  simp

theorem parse_mkChunkPacket {pay : List Nat} {total cur : Nat}
    (hpay : pay ≠ []) (h0 : 0 < total) (htot : total < 10000)
    (hcur : cur < total) :
    parseChunkMeta (mkChunkPacket pay total cur) = .chunk total cur pay := by
  have hcur4 : cur < 10000 := lt_of_lt_of_le hcur (le_of_lt htot)
  have hlen := mkChunkPacket_length pay total cur
  have hpl : 1 ≤ pay.length := by
    cases pay with
    | nil => exact absurd rfl hpay
    | cons a t => simp
  have hve := validEndOf_mkChunkPacket pay total cur
  unfold parseChunkMeta
  have hhd : (mkChunkPacket pay total cur).take 4 = sBytes "SEND" := by
    simp only [mkChunkPacket, List.append_assoc]
    exact List.take_left' (by decide)
  rw [if_neg (not_not_intro (Or.inl hhd))]
  rw [hve]
  rw [if_neg (by omega)]
  have htake : (mkChunkPacket pay total cur).take
      (mkChunkPacket pay total cur).length = mkChunkPacket pay total cur :=
    List.take_length _
  rw [htake]
  have hmeta : (mkChunkPacket pay total cur).drop
      ((mkChunkPacket pay total cur).length - 8) = pad4 total ++ pad4 cur := by
    have : mkChunkPacket pay total cur =
        (sBytes "SEND" ++ pay) ++ (pad4 total ++ pad4 cur) := by
      simp [mkChunkPacket]
    rw [this]
    refine List.drop_left' ?_
    simp [sBytes, pad4]
  rw [hmeta]
  have hdig : ((pad4 total ++ pad4 cur).length = 8 ∧
      (pad4 total ++ pad4 cur).all isDigitCode) := by
    constructor
    · simp [pad4]
    · simp only [List.all_append, Bool.and_eq_true]
      exact ⟨pad4_all_digits total, pad4_all_digits cur⟩
  rw [if_neg (not_not_intro hdig)]
  rw [if_neg (by omega)]
  have htk : (pad4 total ++ pad4 cur).take 4 = pad4 total :=
    List.take_left' (by simp [pad4])
  have hdr : (pad4 total ++ pad4 cur).drop 4 = pad4 cur :=
    List.drop_left' (by simp [pad4])
  rw [htk, hdr, natOfDigits_pad4 htot, natOfDigits_pad4 hcur4]
  rw [if_neg (by omega)]
  rw [if_neg (by omega)]
  have hdata : ((mkChunkPacket pay total cur).take
      ((mkChunkPacket pay total cur).length - 8)).drop 4 = pay := by
    have h1 : mkChunkPacket pay total cur =
        (sBytes "SEND" ++ pay) ++ (pad4 total ++ pad4 cur) := by
      simp [mkChunkPacket]
    rw [h1]
    have h2 : ((sBytes "SEND" ++ pay) ++ (pad4 total ++ pad4 cur)).take
        (((sBytes "SEND" ++ pay) ++ (pad4 total ++ pad4 cur)).length - 8) =
        sBytes "SEND" ++ pay := by
      refine List.take_left' ?_
      simp [sBytes, pad4]
    rw [h2]
    exact List.drop_left' (by decide)
  rw [hdata]
  rw [if_neg hpay]

theorem findOrCreate_found {st : ImgState} {total cur now : Nat}
    {id : List Nat} {info : ImageInfo}
    (hfind : st.imageReceptions.find? (fun e => e.2.totalChunks == total) =
      some (id, info)) :
    findOrCreateImageReception now st total cur =
      ([], id, info, (mapLookup st.imagePacketBuffer id).getD [], st) := by
  unfold findOrCreateImageReception
  rw [hfind]

/-- C7: delivering a valid image chunk whose index is already in the
reception's received set is a no-op: no event is produced (so no log
entry) and the state is returned unchanged (received set, stored chunk
bytes and timestamps untouched), so a chunk index is never stored twice
and a second delivery of a stored chunk is equivalent to the first alone. -/
theorem c7_duplicate_noop (gz : List Nat → Option (List Nat)) (now : Nat)
    (st : ImgState) (pay : List Nat) (total cur : Nat)
    (id : List Nat) (info : ImageInfo)
    (hpay : pay ≠ []) (h0 : 0 < total) (htot : total < 10000)
    (hcur : cur < total)
    (hfind : st.imageReceptions.find? (fun e => e.2.totalChunks == total) =
      some (id, info))
    (hdup : info.receivedChunks.contains cur = true) :
    processImagePacket gz now st (mkChunkPacket pay total cur) = ([], st) := by
  unfold processImagePacket
  rw [parse_mkChunkPacket hpay h0 htot hcur]
  simp only [findOrCreate_found hfind, hdup, if_true]

/-- The state after one valid chunk (index 1 of 5) has been stored,
used to witness the duplicate-delivery no-op. -/
def dupDemoState : ImgState :=
  (processImagePacket (fun _ => none) 0 emptyImgState
    (mkChunkPacket (sBytes "AB") 5 1)).2

/-- C7 witness: at the concrete state above, redelivering the stored chunk
returns no events and the unchanged state. -/
theorem c7_duplicate_noop_witness :
    processImagePacket (fun _ => none) 0 dupDemoState
      (mkChunkPacket (sBytes "AB") 5 1) = ([], dupDemoState) :=
  c7_duplicate_noop (fun _ => none) 0 dupDemoState (sBytes "AB") 5 1
    (sBytes "img_5_0")
    { totalChunks := 5, receivedChunks := [1], startTime := 0,
      lastPacketTime := 0, retransmitAttempts := 0,
      filename := sBytes "image_5.jpg.gz" }
    (by decide) (by decide) (by decide) (by decide) (by decide) (by decide)

/-- C3 counterexample: the packet `SENDA00020000` has a valid tail of 9
characters after the tag — shorter than the 13 the claim names — yet it is
not reclassified: it parses as a valid chunk and processing it creates a
reception. -/
theorem c3_counterexample :
    validEndOf (sBytes "SENDA00020000") - 4 < 13 ∧
    parseChunkMeta (sBytes "SENDA00020000") = .chunk 2 0 (sBytes "A") ∧
    isReclassify (parseChunkMeta (sBytes "SENDA00020000")) = false ∧
    (processImagePacket (fun _ => none) 0 emptyImgState
      (sBytes "SENDA00020000")).2.imageReceptions ≠ [] := by
  refine ⟨by decide, by decide, by decide, by decide⟩

/-- C3 witness: the short reply `SENDroot` (tail of 4 characters) is
reclassified and handed to the log sink as `root`, leaving any state
unchanged. -/
theorem c3_reclassified_iff_witness :
    isReclassify (parseChunkMeta (sBytes "SENDroot")) = true ∧
    processImagePacket (fun _ => none) 0 emptyImgState (sBytes "SENDroot") =
      ([.log (.response (sBytes "root")) "response"], emptyImgState) := by
  have h := c3_reclassified_iff (sBytes "SENDroot") (Or.inl (by decide))
  refine ⟨h.1.mpr (Or.inl (by decide)), ?_⟩
  have h2 := h.2 (sBytes "root") (by decide) (fun _ => none) 0 emptyImgState
  rw [h2]
  decide

/-! ### C5: short fixed-size telemetry frames warn and drop -/

theorem dropWhile_eq_self_of_all {p : Nat → Bool} {l : List Nat}
    (h : ∀ c ∈ l, p c = false) : l.dropWhile p = l := by
  cases l with
  | nil => rfl
  | cons a t =>
    exact List.dropWhile_cons_of_neg (by simp [h a (List.mem_cons_self a t)])

theorem jsTrim_eq_self {l : List Nat}
    (h : ∀ c ∈ l, jsWhitespace c = false) : jsTrim l = l := by
  unfold jsTrim
  rw [dropWhile_eq_self_of_all h, dropWhile_eq_self_of_all, List.reverse_reverse]
  intro c hc
  exact h c (List.mem_reverse.mp hc)

/-- When the first four bytes are a clean ASCII tag (no NULs, no
whitespace), the extracted identifier is exactly that tag. -/
theorem identOf_eq_of_take4 {data t : List Nat} (htag : data.take 4 = t)
    (hc : ∀ c ∈ t, c ≠ 0 ∧ jsWhitespace c = false) : identOf data = t := by
  unfold identOf
  rw [htag]
  rw [List.filter_eq_self.mpr (fun c hcm => by simp [(hc c hcm).1])]
  exact jsTrim_eq_self (fun c hcm => (hc c hcm).2)

/-- The claim's size table: every telemetry tag with a fixed frame size. -/
def fixedTelemetryTable : List (List Nat × Nat) :=
  [(sBytes "GYRO", 16), (sBytes "ACCL", 16), (sBytes "MAGN", 16),
   (sBytes "GRAV", 16), (sBytes "EULR", 16), (sBytes "BMED", 16),
   (sBytes "OBCR", 8), (sBytes "OBCD", 8), (sBytes "OBCC", 8),
   (sBytes "OBCL", 234), (sBytes "OBCP", 234), (sBytes "ADCS", 32),
   (sBytes "EPSS", 28), (sBytes "HOST", 15), (sBytes "SOLR", 36)]

/-- C5: for every telemetry tag with a fixed size (GYRO/ACCL/MAGN/GRAV/
EULR/BMED = 16, OBCR/OBCD/OBCC = 8, OBCL/OBCP = 234, ADCS = 32,
EPSS = 28, HOST = 15, SOLR = 36), decoding a frame shorter than the
required size produces exactly the reported size warning, no telemetry
record, and leaves the accumulation state unchanged — the frame is
dropped, and `unpackCommand` (a total function, matching its enclosing
`try`/`catch`) lets no exception escape. -/
theorem c5_short_frame_warns (p : List Nat × Nat)
    (hp : p ∈ fixedTelemetryTable) (st : TelState) (data : List Nat)
    (htag : data.take 4 = p.1) (hshort : data.length < p.2) :
    unpackCommand st data = ([.log (.sizeWarn p.1 data.length) "warning"], st) := by
  have h4 : 4 ≤ data.length :=
    length_ge_four_of_take p.1 (by fin_cases hp <;> decide) htag
  have hid : identOf data = p.1 :=
    identOf_eq_of_take4 htag (by fin_cases hp <;> decide)
  have hn4 : ¬ data.length < 4 := by omega
  fin_cases hp <;>
    simp_all [unpackCommand, sBytes, unpackSensorData, unpackBMEData,
      unpackOBCSingleValue, unpackOBCFileListing, unpackOBCProcesses,
      unpackADCSData, unpackEPSStatus, unpackHostname, unpackSolarData]

/-- C5 witness: a 10-byte GYRO frame (shorter than 16) yields exactly the
size warning and an unchanged state. -/
theorem c5_short_frame_warns_witness :
    unpackCommand emptyTelState (sBytes "GYRO" ++ [1, 2, 3, 4, 5, 6]) =
      ([.log (.sizeWarn (sBytes "GYRO") 10) "warning"], emptyTelState) :=
  c5_short_frame_warns (sBytes "GYRO", 16) (by decide) emptyTelState
    (sBytes "GYRO" ++ [1, 2, 3, 4, 5, 6]) (by decide) (by decide)

/-! ### C6: POLL payload accumulation -/

/-- A POLL frame as the classifier slices it: tag, little-endian 32-bit
payload length, payload. -/
def mkPollPacket (pl : List Nat) : List Nat :=
  sBytes "POLL" ++ [pl.length % 256, pl.length / 256 % 256,
    pl.length / 65536 % 256, pl.length / 16777216 % 256] ++ pl

theorem mkPollPacket_cons (pl : List Nat) :
    mkPollPacket pl = 80 :: 79 :: 76 :: 76 :: (pl.length % 256) ::
      (pl.length / 256 % 256) :: (pl.length / 65536 % 256) ::
      (pl.length / 16777216 % 256) :: pl := by
  simp [mkPollPacket, sBytes]

theorem unpackCommand_poll (st : TelState) (data : List Nat)
    (hid : identOf data = sBytes "POLL") (h4 : ¬ data.length < 4) :
    unpackCommand st data = unpackPollData st data := by
  unfold unpackCommand
  rw [if_neg h4, hid]
  rw [if_neg (by decide), if_neg (by decide), if_pos rfl]

/-- C6: from an empty poll accumulation buffer, a POLL frame with payload
length 40 followed by one with payload length 24 emits no record after the
first frame (the 40 bytes are buffered) and exactly one record after the
second — carrying the 64 accumulated payload bytes in order, i.e. the byte
representation of the 16 little-endian float32 values — after which the
accumulation buffer is reset to empty. -/
theorem c6_poll_accumulation (st : TelState) (p1 p2 : List Nat)
    (hbuf : st.pollBuffer = []) (h1 : p1.length = 40) (h2 : p2.length = 24) :
    unpackCommand st (mkPollPacket p1) = ([], { st with pollBuffer := p1 }) ∧
    unpackCommand { st with pollBuffer := p1 } (mkPollPacket p2) =
      ([.record (sBytes "POLL") (p1 ++ p2)], { st with pollBuffer := [] }) := by
  have hid1 : identOf (mkPollPacket p1) = sBytes "POLL" := by
    refine identOf_eq_of_take4 ?_ (by decide)
    simp only [mkPollPacket, List.append_assoc]
    exact List.take_left' (by decide)
  have hid2 : identOf (mkPollPacket p2) = sBytes "POLL" := by
    refine identOf_eq_of_take4 ?_ (by decide)
    simp only [mkPollPacket, List.append_assoc]
    exact List.take_left' (by decide)
  have hlen1 : (mkPollPacket p1).length = 48 := by
    simp [mkPollPacket, sBytes, h1]
  have hlen2 : (mkPollPacket p2).length = 32 := by
    simp [mkPollPacket, sBytes, h2]
  constructor
  · rw [unpackCommand_poll _ _ hid1 (by omega)]
    unfold unpackPollData
    rw [if_neg (by omega)]
    have hle : le32 (mkPollPacket p1) 4 = 40 := by
      rw [mkPollPacket_cons, h1]
      simp [le32, List.getD]
    rw [hle]
    rw [if_neg (by omega)]
    have hslice : ((mkPollPacket p1).take (8 + 40)).drop 8 = p1 := by
      have : (mkPollPacket p1).take (8 + 40) = mkPollPacket p1 := by
        rw [List.take_of_length_le (by omega)]
      rw [this, mkPollPacket_cons]
      rfl
    rw [hslice, hbuf]
    simp only [List.nil_append]
    rw [if_neg (by omega)]
  · rw [unpackCommand_poll _ _ hid2 (by omega)]
    unfold unpackPollData
    rw [if_neg (by omega)]
    have hle : le32 (mkPollPacket p2) 4 = 24 := by
      rw [mkPollPacket_cons, h2]
      simp [le32, List.getD]
    rw [hle]
    rw [if_neg (by omega)]
    have hslice : ((mkPollPacket p2).take (8 + 24)).drop 8 = p2 := by
      have : (mkPollPacket p2).take (8 + 24) = mkPollPacket p2 := by
        rw [List.take_of_length_le (by omega)]
      rw [this, mkPollPacket_cons]
      rfl
    rw [hslice]
    simp only []
    rw [if_pos (by simp [List.length_append, h1, h2])]
    rw [List.take_of_length_le (by simp [List.length_append, h1, h2])]

/-- C6 witness: concrete 40- and 24-byte payloads. -/
theorem c6_poll_accumulation_witness :
    unpackCommand emptyTelState (mkPollPacket (List.replicate 40 7)) =
      ([], { emptyTelState with pollBuffer := List.replicate 40 7 }) ∧
    unpackCommand { emptyTelState with pollBuffer := List.replicate 40 7 }
        (mkPollPacket (List.replicate 24 9)) =
      ([.record (sBytes "POLL") (List.replicate 40 7 ++ List.replicate 24 9)],
       { emptyTelState with pollBuffer := [] }) :=
  c6_poll_accumulation emptyTelState (List.replicate 40 7)
    (List.replicate 24 9) (by decide) (by decide) (by decide)

/-! ### Unfolding equations for the classifier loop -/

theorem processBuffer_wait {buf : List Nat} (h : classifyStep buf = .wait) :
    processBuffer buf = ⟨[], buf, false⟩ := by
  unfold processBuffer
  rw [h]

theorem processBuffer_discard {buf : List Nat}
    (h : classifyStep buf = .discard) :
    processBuffer buf = ⟨[], [], true⟩ := by
  unfold processBuffer
  rw [h]

theorem processBuffer_emit {buf rest : List Nat} {f : Option Frame}
    (h : classifyStep buf = .emit f rest) :
    processBuffer buf =
      { processBuffer rest with
        frames := f.toList ++ (processBuffer rest).frames } := by
  conv_lhs => unfold processBuffer
  rw [h]

/-! ### C8: buffer-overflow discard -/

/-- C8: whenever the accumulated buffer exceeds 1024 bytes and no
recognizable frame can be identified in it — no newline/carriage-return
byte anywhere, the leading identifier is no known binary identifier, and
(when it is SEND/RETX-headed) the 1024-byte lookahead scan finds no packet
end — `processReceivedData` discards the entire buffer and logs the
condition, so the unconsumed buffer cannot grow without bound. -/
theorem c8_overflow_discard (buf data : List Nat)
    (hlen : 1024 < (buf ++ data).length)
    (hnl : ∀ c ∈ buf ++ data, c ≠ 10 ∧ c ≠ 13)
    (hbin : identOf (buf ++ data) ∉ binaryIdentifiers)
    (hsend : (identOf (buf ++ data) = sBytes "SEND" ∨
        identOf (buf ++ data) = sBytes "RETX") →
      scanEnd (buf ++ data) = none) :
    processReceivedData buf data = ⟨[], [], true⟩ := by
  have htext : classifyText (buf ++ data) = .discard := by
    unfold classifyText
    have hfi : (buf ++ data).findIdx? (fun c => c == 10 || c == 13) = none := by
      refine List.findIdx?_eq_none_iff.mpr ?_
      intro x hx
      have := hnl x hx
      simp only [Bool.or_eq_false_iff, beq_eq_false_iff_ne]
      exact this
    rw [hfi]
    rw [if_pos hlen]
  have hbint : classifyBinary (buf ++ data) = .discard := by
    unfold classifyBinary
    rw [if_neg (by intro hc; exact hbin hc.2)]
    exact htext
  have hstep : classifyStep (buf ++ data) = .discard := by
    unfold classifyStep
    by_cases h5 : 5 ≤ (buf ++ data).length ∧
        (identOf (buf ++ data) = sBytes "SEND" ∨
          identOf (buf ++ data) = sBytes "RETX")
    · rw [if_pos h5]
      have hpe : packetEndOf (buf ++ data) = none := by
        unfold packetEndOf
        rw [hsend h5.2]
        rw [if_neg (by omega)]
      rw [hpe]
      exact hbint
    · rw [if_neg h5]
      exact hbint
  exact processBuffer_discard hstep

/-- C8 witness: 1025 bytes of `x` with no recognizable frame are discarded
whole, with the overflow condition logged. -/
theorem c8_overflow_discard_witness :
    processReceivedData [] (List.replicate 1025 120) = ⟨[], [], true⟩ := by
  have hident : identOf (([] : List Nat) ++ List.replicate 1025 120) =
      [120, 120, 120, 120] := by
    rw [List.nil_append]
    refine identOf_eq_of_take4 ?_ (by decide)
    rw [List.take_replicate]
    decide
  refine c8_overflow_discard [] (List.replicate 1025 120) ?_ ?_ ?_ ?_
  · rw [List.nil_append, List.length_replicate]
    omega
  · intro c hc
    rw [List.nil_append] at hc
    have := List.eq_of_mem_replicate hc
    omega
  · rw [hident]
    decide
  · intro hc
    rw [hident] at hc
    rcases hc with h | h <;> exact absurd h (by decide)

/-! ### C9: reconstruction-integrity failures leave the reception in place -/

/-- Whether an event list reports a failure (an `error` or `warning` log
entry). -/
def hasErrorOrWarn (evs : List Ev) : Bool :=
  evs.any fun e =>
    match e with
    | .log _ sev => sev == "error" || sev == "warning"
    | _ => false

/-- C9: if reconstruction of a completed image fails — a chunk index
missing from the chunk store, the concatenated string failing base64
validation, `atob` failing, or gzip decompression failing — then the
failure is reported (an error/warning log entry), the `ImageReception` and
its chunk store remain in their tables (the state is returned unchanged),
and no repair beyond the retransmission path is attempted (no transport
write is emitted). The hypothesis says exactly that the happy path is not
reached: whenever reconstruction, validation and decoding all succeed,
decompression fails. -/
theorem c9_failure_keeps_reception (gz : List Nat → Option (List Nat))
    (st : ImgState) (id : List Nat) (info : ImageInfo)
    (pbuf : List (Nat × List Nat))
    (hinfo : mapLookup st.imageReceptions id = some info)
    (hpbuf : mapLookup st.imagePacketBuffer id = some pbuf)
    (hfail : ∀ recon bytes, reconstructData info.totalChunks pbuf = .ok recon →
      checkB64Strict recon = true → atob recon = some bytes → gz bytes = none) :
    (completeImageReception gz st id).2 = st ∧
    hasErrorOrWarn (completeImageReception gz st id).1 = true ∧
    writesOf (completeImageReception gz st id).1 = [] := by
  unfold completeImageReception
  rw [hinfo, hpbuf]
  simp only []
  cases hrec : reconstructData info.totalChunks pbuf with
  | error i => simp [hasErrorOrWarn, writesOf]
  | ok recon =>
    simp only []
    by_cases hb : checkB64Strict recon = true
    · rw [if_neg (by simp [hb])]
      cases hat : atob recon with
      | none => simp [hasErrorOrWarn, writesOf]
      | some bytes =>
        have hgz := hfail recon bytes hrec hb hat
        simp only [hgz]
        by_cases hm : bytes.length < 2 || bytes.getD 0 0 ≠ 31 || bytes.getD 1 0 ≠ 139
        · rw [if_pos hm]
          simp [hasErrorOrWarn, writesOf]
        · rw [if_neg hm]
          simp [hasErrorOrWarn, writesOf]
    · rw [if_pos (by simp [hb])]
      simp [hasErrorOrWarn, writesOf]

/-- A reception that believes itself complete (2 of 2) but whose chunk
store is missing index 1. -/
def c9DemoState : ImgState :=
  ⟨[(sBytes "img_2",
     { totalChunks := 2, receivedChunks := [0], startTime := 0,
       lastPacketTime := 0, retransmitAttempts := 0,
       filename := sBytes "image_2.jpg.gz" })],
   [(sBytes "img_2", [(0, sBytes "QQ")])], none⟩

/-- C9 witness: a reception whose chunk store is missing index 1 reports
the missing chunk and keeps the reception. -/
theorem c9_failure_keeps_reception_witness :
    (completeImageReception (fun _ => none) c9DemoState (sBytes "img_2")).2 =
      c9DemoState ∧
    hasErrorOrWarn
      (completeImageReception (fun _ => none) c9DemoState (sBytes "img_2")).1 =
      true ∧
    writesOf
      (completeImageReception (fun _ => none) c9DemoState (sBytes "img_2")).1 =
      [] :=
  c9_failure_keeps_reception (fun _ => none) c9DemoState (sBytes "img_2")
    { totalChunks := 2, receivedChunks := [0], startTime := 0,
      lastPacketTime := 0, retransmitAttempts := 0,
      filename := sBytes "image_2.jpg.gz" }
    [(0, sBytes "QQ")] (by decide) (by decide)
    (fun recon bytes hrec _ _ => by
      have h : reconstructData
          ({ totalChunks := 2, receivedChunks := [0], startTime := 0,
             lastPacketTime := 0, retransmitAttempts := 0,
             filename := sBytes "image_2.jpg.gz" } : ImageInfo).totalChunks
          [(0, sBytes "QQ")] = Except.error 1 := by rfl
      rw [h] at hrec)

/-! ### C4: retransmission command batching -/

/-- The sequential batches the loop takes over the missing list. -/
def chunksOf (m : Nat) : Nat → List Nat → List (List Nat)
  | 0, _ => []
  | _, [] => []
  | fuel + 1, i :: rest => ((i :: rest).take m) :: chunksOf m fuel ((i :: rest).drop m)

theorem chunksOf_flatten (m : Nat) (hm : 1 ≤ m) :
    ∀ fuel l, l.length ≤ fuel → (chunksOf m fuel l).flatten = l := by
  intro fuel
  induction fuel with
  | zero =>
    intro l hl
    obtain rfl : l = [] := List.length_eq_zero.mp (by omega)
    rfl
  | succ fuel ih =>
    intro l hl
    cases l with
    | nil => rfl
    | cons i rest =>
      simp only [chunksOf, List.flatten_cons]
      rw [ih ((i :: rest).drop m) (by simp; simp at hl; omega)]
      exact List.take_append_drop m (i :: rest)

theorem natDigitsAux_length_le :
    ∀ fuel n k, n < 10 ^ k → 1 ≤ k → n < fuel →
      (natDigitsAux fuel n).length ≤ k := by
  intro fuel
  induction fuel with
  | zero => intro n k _ _ h; omega
  | succ fuel ih =>
    intro n k hnk hk hf
    unfold natDigitsAux
    by_cases h10 : n < 10
    · simp [h10]
      omega
    · rw [if_neg h10]
      have hk2 : 2 ≤ k := by
        by_contra hc
        have : k = 1 := by omega
        rw [this] at hnk
        simp at hnk
        omega
      have h1 : n / 10 < 10 ^ (k - 1) := by
        have h2 : 10 ^ k = 10 ^ (k - 1) * 10 := by
          rw [← pow_succ]
          congr 1
          omega
        rw [h2] at hnk
        omega
      have h3 : (natDigitsAux fuel (n / 10)).length ≤ k - 1 :=
        ih (n / 10) (k - 1) h1 (by omega) (by omega)
      simp only [List.length_append, List.length_cons, List.length_nil]
      omega

theorem natDigits_length_le {n : Nat} (h : n < 10000) :
    (natDigits n).length ≤ 4 := by
  have : (10000 : Nat) = 10 ^ 4 := by norm_num
  exact natDigitsAux_length_le (n + 1) n 4 (by omega) (by omega) (by omega)

theorem joinSp_length_le (xs : List (List Nat)) (hne : xs ≠ [])
    (h4 : ∀ x ∈ xs, x.length ≤ 4) :
    (mkRetransmitCmd.joinSp xs).length + 1 ≤ 5 * xs.length := by
  induction xs with
  | nil => exact absurd rfl hne
  | cons x t ih =>
    cases t with
    | nil =>
      have hx := h4 x (by simp)
      have hj : mkRetransmitCmd.joinSp [x] = x := rfl
      rw [hj]
      simp only [List.length_cons, List.length_nil]
      omega
    | cons y u =>
      have ht := ih (by simp) (fun z hz => h4 z (by simp [hz]))
      have hstep : mkRetransmitCmd.joinSp (x :: y :: u) =
          x ++ [32] ++ mkRetransmitCmd.joinSp (y :: u) := rfl
      rw [hstep]
      have hx := h4 x (by simp)
      simp only [List.length_append, List.length_cons, List.length_nil] at ht ⊢
      omega

theorem mkRetransmitCmd_length_le (fn c : List Nat) (hne : c ≠ [])
    (hd : ∀ i ∈ c, i < 10000) :
    (mkRetransmitCmd fn c).length + 1 ≤ 12 + fn.length + 5 * c.length := by
  have hj := joinSp_length_le (c.map natDigits) (by simp [hne])
    (by
      intro x hx
      rcases List.mem_map.mp hx with ⟨i, hi, rfl⟩
      exact natDigits_length_le (hd i hi))
  simp only [mkRetransmitCmd, List.length_append, List.length_map, sBytes] at hj ⊢
  simp at hj ⊢
  omega

/-- When every batch command fits the 59-byte body budget, the loop sends
one command per sequential batch, never entering the halving path. -/
theorem retxLoop_all_fit (fn : List Nat) (m : Nat) (hm : 1 ≤ m)
    (hfit : ∀ c : List Nat, c ≠ [] → c.length ≤ m → (∀ i ∈ c, i < 10000) →
      (mkRetransmitCmd fn c).length ≤ 59) :
    ∀ fuel l, l.length ≤ fuel → (∀ i ∈ l, i < 10000) →
      retxLoop fn m fuel l = (chunksOf m fuel l).flatMap
        (fun c => [Ev.log (.batchInfo c.length (mkRetransmitCmd fn c).length)
            "command", Ev.blink "rfm95TxLed",
          Ev.write (mkRetransmitCmd fn c ++ [10])]) := by
  intro fuel
  induction fuel with
  | zero =>
    intro l hl _
    obtain rfl : l = [] := List.length_eq_zero.mp (by omega)
    rfl
  | succ fuel ih =>
    intro l hl hd
    cases l with
    | nil => rfl
    | cons i rest =>
      have hchunk : ((i :: rest).take m) ≠ [] := by
        cases m with
        | zero => omega
        | succ m => simp [List.take_cons]
      have hcl : ((i :: rest).take m).length ≤ m := by
        simp
      have hcd : ∀ j ∈ (i :: rest).take m, j < 10000 := by
        intro j hj
        exact hd j (List.mem_of_mem_take hj)
      have hc := hfit _ hchunk hcl hcd
      unfold retxLoop
      rw [if_neg (by omega)]
      unfold chunksOf
      rw [List.flatMap_cons]
      rw [ih ((i :: rest).drop m) (by simp; simp at hl; omega)
        (fun j hj => hd j (List.mem_of_mem_drop hj))]
      rfl

/-- The writes among the per-batch event triples. -/
theorem writesOf_batches (fn : List Nat) (cs : List (List Nat)) :
    writesOf (cs.flatMap
      (fun c => [Ev.log (.batchInfo c.length (mkRetransmitCmd fn c).length)
          "command", Ev.blink "rfm95TxLed",
        Ev.write (mkRetransmitCmd fn c ++ [10])])) =
      cs.map (fun c => mkRetransmitCmd fn c ++ [10]) := by
  induction cs with
  | nil => rfl
  | cons c t ih =>
    rw [List.flatMap_cons, List.map_cons]
    unfold writesOf at ih ⊢
    rw [List.filterMap_append]
    rw [ih]
    rfl

theorem chunksOf_mem (m : Nat) (hm : 1 ≤ m) :
    ∀ fuel l c, c ∈ chunksOf m fuel l →
      c ≠ [] ∧ c.length ≤ m ∧ ∀ i ∈ c, i ∈ l := by
  intro fuel
  induction fuel with
  | zero => intro l c hc; simp [chunksOf] at hc
  | succ fuel ih =>
    intro l c hc
    cases l with
    | nil => simp [chunksOf] at hc
    | cons i rest =>
      simp only [chunksOf, List.mem_cons] at hc
      rcases hc with rfl | hc
      · refine ⟨?_, by simp, fun j hj => List.mem_of_mem_take hj⟩
        cases m with
        | zero => omega
        | succ m => simp [List.take_cons]
      · have := ih _ _ hc
        exact ⟨this.1, this.2.1,
          fun j hj => List.mem_of_mem_drop (this.2.2 j hj)⟩

theorem prefix_length_retransmit (fn : List Nat) :
    (sBytes "RETRANSMIT " ++ fn ++ sBytes " ").length = 12 + fn.length := by
  simp [sBytes]
  omega

/-- Commands over batches bounded by `maxPacketsPerCommand` fit the 59-byte
body budget whenever the filename is at most 43 bytes and every index has
at most four digits. -/
theorem cmd_fits (fn : List Nat) (hfn : fn.length ≤ 43) :
    ∀ c : List Nat, c ≠ [] → c.length ≤ maxPacketsPerCommand fn →
      (∀ i ∈ c, i < 10000) → (mkRetransmitCmd fn c).length ≤ 59 := by
  intro c hne hcl hd
  have hb := mkRetransmitCmd_length_le fn c hne hd
  have hc1 : 1 ≤ c.length := by
    cases c with
    | nil => exact absurd rfl hne
    | cons a t => simp
  unfold maxPacketsPerCommand at hcl
  rw [prefix_length_retransmit] at hcl
  have hq : (60 - (12 + fn.length) - 1) / 5 * 5 ≤ 60 - (12 + fn.length) - 1 :=
    Nat.div_mul_le_self _ _
  rcases Nat.eq_zero_or_pos ((60 - (12 + fn.length) - 1) / 5) with h0 | hpos
  · rw [h0] at hcl
    simp at hcl
    omega
  · have : max 1 ((60 - (12 + fn.length) - 1) / 5) =
        (60 - (12 + fn.length) - 1) / 5 := max_eq_right hpos
    rw [this] at hcl
    omega

theorem checkMissingPackets_found {st : ImgState} {id : List Nat}
    {info : ImageInfo} (hinfo : mapLookup st.imageReceptions id = some info) :
    checkMissingPackets st id =
      (if 0 < (missingOf info).length then
        [.log (.missingSummary id (missingOf info).length) "warning"] else [],
       missingOf info) := by
  unfold checkMissingPackets
  rw [hinfo]

theorem requestRetransmission_auto (st : ImgState) (id : List Nat)
    (info : ImageInfo)
    (hinfo : mapLookup st.imageReceptions id = some info)
    (hmiss : missingOf info ≠ [])
    (hatt : info.retransmitAttempts + 1 ≤ 3)
    (hfn0 : info.filename ≠ []) :
    requestRetransmission true st id none =
      ([.log (.missingSummary id (missingOf info).length) "warning",
        .log (.requestPlan (missingOf info).length
          (maxPacketsPerCommand info.filename)) "info"] ++
       retxLoop info.filename (maxPacketsPerCommand info.filename)
         (missingOf info).length (missingOf info) ++
       [.log (.retransComplete (info.retransmitAttempts + 1)) "info"],
       ⟨mapSet st.imageReceptions id
          { info with retransmitAttempts := info.retransmitAttempts + 1 },
        st.imagePacketBuffer, st.currentImageFilename⟩) := by
  have hlen : 0 < (missingOf info).length := by
    cases hmv : missingOf info with
    | nil => exact absurd hmv hmiss
    | cons a t => simp
  unfold requestRetransmission
  rw [checkMissingPackets_found hinfo]
  simp only [Bool.not_true, Bool.false_eq_true, if_false, if_pos hlen]
  rw [if_neg (by omega)]
  rw [hinfo]
  simp only []
  rw [if_neg (by omega)]
  rw [if_neg (by simpa using hfn0)]
  simp

/-- C4 (amended: provided the stored filename is at most 43 bytes and the
declared total at most 10000, so that every per-batch command fits the
budget): whenever `requestRetransmission` runs for a reception whose
missing-index set is non-empty and whose attempt ceiling is not exceeded,
the outbound lines are exactly one `RETRANSMIT <filename> <idx> <idx> ...`
command per sequential batch of the missing list — using the literal
filename stored for the reception, newline-terminated, at most 60 bytes
including the newline — and the batches concatenate back to the whole
missing list, so every missing index is requested. -/
theorem c4_retransmission_batches (st : ImgState) (id : List Nat)
    (info : ImageInfo)
    (hinfo : mapLookup st.imageReceptions id = some info)
    (hmiss : missingOf info ≠ [])
    (hatt : info.retransmitAttempts + 1 ≤ 3)
    (hfn0 : info.filename ≠ []) (hfn : info.filename.length ≤ 43)
    (htot : info.totalChunks ≤ 10000) :
    writesOf (requestRetransmission true st id none).1 =
      (chunksOf (maxPacketsPerCommand info.filename) (missingOf info).length
        (missingOf info)).map
        (fun c => mkRetransmitCmd info.filename c ++ [10]) ∧
    (chunksOf (maxPacketsPerCommand info.filename) (missingOf info).length
      (missingOf info)).flatten = missingOf info ∧
    (∀ w ∈ writesOf (requestRetransmission true st id none).1,
      w.length ≤ 60) := by
  have hm : 1 ≤ maxPacketsPerCommand info.filename := le_max_left 1 _
  have hd : ∀ i ∈ missingOf info, i < 10000 := by
    intro i hi
    unfold missingOf at hi
    have := List.mem_range.mp (List.mem_of_mem_filter hi)
    omega
  have hfit := cmd_fits info.filename hfn
  have hloop := retxLoop_all_fit info.filename _ hm hfit
    (missingOf info).length (missingOf info) le_rfl hd
  have hw : writesOf (requestRetransmission true st id none).1 =
      (chunksOf (maxPacketsPerCommand info.filename) (missingOf info).length
        (missingOf info)).map
        (fun c => mkRetransmitCmd info.filename c ++ [10]) := by
    rw [requestRetransmission_auto st id info hinfo hmiss hatt hfn0]
    simp only []
    unfold writesOf
    rw [List.filterMap_append, List.filterMap_append]
    rw [hloop]
    have h1 := writesOf_batches info.filename
      (chunksOf (maxPacketsPerCommand info.filename)
        (missingOf info).length (missingOf info))
    unfold writesOf at h1
    rw [h1]
    simp [List.filterMap]
  refine ⟨hw, chunksOf_flatten _ hm _ _ le_rfl, ?_⟩
  intro w hwm
  rw [hw] at hwm
  rcases List.mem_map.mp hwm with ⟨c, hc, rfl⟩
  have hcm := chunksOf_mem _ hm _ _ _ hc
  have := hfit c hcm.1 hcm.2.1 (fun i hi => hd i (hcm.2.2 i hi))
  simp only [List.length_append, List.length_cons, List.length_nil]
  omega

/-- A reception missing indices 2 and 7 of 10, with the registered
filename `photo.jpg.gz.chunked`. -/
def c4DemoState : ImgState :=
  ⟨[(sBytes "img_10",
     { totalChunks := 10, receivedChunks := [0, 1, 3, 4, 5, 6, 8, 9],
       startTime := 0, lastPacketTime := 0, retransmitAttempts := 0,
       filename := sBytes "photo.jpg.gz.chunked" })], [], none⟩

/-- C4 witness: for missing indices 2 and 7 out of 10, one newline-
terminated 36-byte command containing both indices and the stored
filename is written. -/
theorem c4_retransmission_batches_witness :
    writesOf (requestRetransmission true c4DemoState (sBytes "img_10") none).1 =
      [sBytes "RETRANSMIT photo.jpg.gz.chunked 2 7" ++ [10]] ∧
    (sBytes "RETRANSMIT photo.jpg.gz.chunked 2 7" ++ [10]).length ≤ 60 := by
  have h := c4_retransmission_batches c4DemoState (sBytes "img_10")
    { totalChunks := 10, receivedChunks := [0, 1, 3, 4, 5, 6, 8, 9],
      startTime := 0, lastPacketTime := 0, retransmitAttempts := 0,
      filename := sBytes "photo.jpg.gz.chunked" }
    (by decide) (by decide) (by decide) (by decide) (by decide) (by decide)
  refine ⟨?_, by decide⟩
  rw [h.1]
  decide

/-- A reception record missing index 1 of 2 whose registered filename is
48 bytes long, too long for any retransmit command to fit the budget. -/
def c4BadInfo : ImageInfo :=
  { totalChunks := 2, receivedChunks := [0], startTime := 0,
    lastPacketTime := 0, retransmitAttempts := 0,
    filename := sBytes "aaaaaaaaaaaaaaaaaaaaaaaaaaaaaaaaaaaaaaaa.chunked" }

/-- The image-module state holding that reception. -/
def c4BadState : ImgState :=
  ⟨[(sBytes "img_2", c4BadInfo)], [], none⟩

set_option maxRecDepth 8192 in
/-- C4 counterexample: with a 48-byte registered filename, the reception's
missing-index set is the non-empty `[1]` and the attempt ceiling is not
exceeded, yet `requestRetransmission` writes nothing at all — the missing
index is never requested (the halving retry still exceeds the budget and
the batch is skipped with an error log). -/
theorem c4_counterexample :
    missingOf c4BadInfo = [1] ∧
    mapLookup c4BadState.imageReceptions (sBytes "img_2") = some c4BadInfo ∧
    c4BadInfo.retransmitAttempts + 1 ≤ 3 ∧
    writesOf (requestRetransmission true c4BadState (sBytes "img_2") none).1 =
      [] := by
  refine ⟨by decide, by decide, by decide, by decide⟩

/-! ### C10: filename registration -/

/-- Every transport write the batching loop makes — including the halved
retry path — is a `RETRANSMIT <filename> ...` command over the loop's
filename, newline-terminated. -/
theorem retxLoop_write_shape (fn : List Nat) (m : Nat) :
    ∀ fuel l w, w ∈ writesOf (retxLoop fn m fuel l) →
      ∃ c, w = mkRetransmitCmd fn c ++ [10] := by
  intro fuel
  induction fuel with
  | zero => intro l w hw; simp [retxLoop, writesOf] at hw
  | succ fuel ih =>
    intro l w hw
    cases l with
    | nil => simp [retxLoop, writesOf] at hw
    | cons i rest =>
      unfold retxLoop at hw
      unfold writesOf at hw
      dsimp only at hw
      split at hw
      · rw [List.filterMap_cons] at hw
        dsimp only at hw
        split at hw
        · rw [List.filterMap_cons] at hw
          dsimp only at hw
          exact ih _ w hw
        · rw [List.filterMap_cons] at hw
          dsimp only at hw
          rcases List.mem_cons.mp hw with rfl | hw2
          · exact ⟨_, rfl⟩
          · rw [List.filterMap_cons] at hw2
            dsimp only at hw2
            exact ih _ w hw2
      · rw [List.filterMap_cons] at hw
        dsimp only at hw
        rw [List.filterMap_cons] at hw
        dsimp only at hw
        rw [List.filterMap_cons] at hw
        dsimp only at hw
        rcases List.mem_cons.mp hw with rfl | hw2
        · exact ⟨_, rfl⟩
        · exact ih _ w hw2

theorem writesOf_append (a b : List Ev) :
    writesOf (a ++ b) = writesOf a ++ writesOf b := by
  unfold writesOf
  exact List.filterMap_append _ _ _

theorem writesOf_log_cons (m : Msg) (s : String) (t : List Ev) :
    writesOf (Ev.log m s :: t) = writesOf t := rfl

theorem writesOf_blink_cons (s : String) (t : List Ev) :
    writesOf (Ev.blink s :: t) = writesOf t := rfl

theorem writesOf_ite (c : Prop) [Decidable c] (a b : List Ev) :
    writesOf (if c then a else b) = if c then writesOf a else writesOf b :=
  apply_ite writesOf c a b

theorem writesOf_nil : writesOf [] = [] := rfl

theorem writesOf_log_single (m : Msg) (s : String) :
    writesOf [Ev.log m s] = [] := rfl

/-- Helper: every automatic retransmission write for a looked-up reception
with a non-empty stored filename is a `RETRANSMIT` command over exactly
that stored filename. -/
theorem requestRetransmission_writes_filename (st : ImgState) (id : List Nat)
    (info : ImageInfo)
    (hinfo : mapLookup st.imageReceptions id = some info)
    (hfn0 : info.filename ≠ []) :
    ∀ w ∈ writesOf (requestRetransmission true st id none).1,
      ∃ c, w = mkRetransmitCmd info.filename c ++ [10] := by
  intro w hw
  unfold requestRetransmission at hw
  rw [checkMissingPackets_found hinfo] at hw
  simp only [Bool.not_true, Bool.false_eq_true, if_false] at hw
  by_cases hm0 : (missingOf info).length = 0
  · rw [if_pos hm0] at hw
    rw [writesOf_append, writesOf_ite] at hw
    simp only [writesOf_log_single, writesOf_nil, ite_self,
      List.nil_append] at hw
    simp at hw
  · rw [if_neg hm0] at hw
    rw [hinfo] at hw
    dsimp only at hw
    by_cases hatt : 3 < info.retransmitAttempts + 1
    · rw [if_pos hatt] at hw
      rw [writesOf_append, writesOf_ite] at hw
      simp only [writesOf_log_single, writesOf_nil, ite_self,
        List.nil_append] at hw
      simp at hw
    · rw [if_neg hatt] at hw
      simp only [if_neg hfn0] at hw
      rw [writesOf_append, writesOf_append, writesOf_append,
        writesOf_ite] at hw
      simp only [writesOf_log_single, writesOf_nil, ite_self,
        List.nil_append, List.append_nil] at hw
      exact retxLoop_write_shape info.filename _ _ _ w hw

/-- C10 (amended: the default filename used when nothing was registered is
`image_<total>.jpg.gz`, without the `.chunked` suffix): registering a
filename stores it with `.chunked` appended, a reception created while it
is registered carries exactly that name, every automatic retransmission
command uses the reception's stored name verbatim, and so does the
timeout checker's suggested manual command; a reception created with no
registered filename gets the default `image_<total>.jpg.gz`. -/
theorem c10_filename_registration (st0 st : ImgState) (fn : List Nat)
    (now total cur : Nat) (id : List Nat) (info : ImageInfo)
    (hnew : st0.imageReceptions.find? (fun e => e.2.totalChunks == total) =
      none)
    (hnoreg : st0.currentImageFilename = none)
    (hinfo : mapLookup st.imageReceptions id = some info)
    (hfn0 : info.filename ≠ []) :
    (setCurrentImageFilename st0 fn).2.currentImageFilename =
      some (fn ++ sBytes ".chunked") ∧
    (findOrCreateImageReception now (setCurrentImageFilename st0 fn).2 total
      cur).2.2.1.filename = fn ++ sBytes ".chunked" ∧
    (findOrCreateImageReception now st0 total cur).2.2.1.filename =
      sBytes "image_" ++ natDigits total ++ sBytes ".jpg.gz" ∧
    (∀ w ∈ writesOf (requestRetransmission true st id none).1,
      ∃ c, w = mkRetransmitCmd info.filename c ++ [10]) ∧
    (∀ f ex sev,
      Ev.log (.manualRetx f ex) sev ∈ (imageTimeoutStep now st id).1 →
      f = info.filename) := by
  refine ⟨rfl, ?_, ?_, requestRetransmission_writes_filename st id info hinfo hfn0, ?_⟩
  · unfold findOrCreateImageReception
    have hrec : (setCurrentImageFilename st0 fn).2.imageReceptions =
        st0.imageReceptions := rfl
    rw [hrec, hnew]
    dsimp only
    rfl
  · unfold findOrCreateImageReception
    rw [hnew]
    dsimp only
    rw [hnoreg]
    rfl
  · intro f ex sev hmem
    unfold imageTimeoutStep at hmem
    rw [hinfo] at hmem
    dsimp only at hmem
    rw [checkMissingPackets_found hinfo] at hmem
    simp only [if_neg hfn0] at hmem
    split at hmem
    · split at hmem
      · rw [List.mem_append] at hmem
        rcases hmem with hmem | hmem
        · simp at hmem
        · simp at hmem
          tauto
      · simp at hmem
    · simp at hmem

/-- A reception with a registered filename, for the C10 witness. -/
def c10DemoInfo : ImageInfo :=
  { totalChunks := 3, receivedChunks := [0], startTime := 0,
    lastPacketTime := 0, retransmitAttempts := 0,
    filename := sBytes "photo.jpg.gz.chunked" }

/-- The image-module state holding that reception. -/
def c10DemoState : ImgState :=
  ⟨[(sBytes "img_3", c10DemoInfo)], [], none⟩

/-- C10 witness: concrete registration, creation and command naming. -/
theorem c10_filename_registration_witness :
    (setCurrentImageFilename emptyImgState
        (sBytes "photo.jpg.gz")).2.currentImageFilename =
      some (sBytes "photo.jpg.gz" ++ sBytes ".chunked") ∧
    (findOrCreateImageReception 5
        (setCurrentImageFilename emptyImgState (sBytes "photo.jpg.gz")).2 2
        0).2.2.1.filename = sBytes "photo.jpg.gz" ++ sBytes ".chunked" ∧
    (findOrCreateImageReception 5 emptyImgState 2 0).2.2.1.filename =
      sBytes "image_" ++ natDigits 2 ++ sBytes ".jpg.gz" ∧
    (∀ w ∈ writesOf
        (requestRetransmission true c10DemoState (sBytes "img_3") none).1,
      ∃ c, w = mkRetransmitCmd c10DemoInfo.filename c ++ [10]) ∧
    (∀ f ex sev, Ev.log (.manualRetx f ex) sev ∈
        (imageTimeoutStep 5 c10DemoState (sBytes "img_3")).1 →
      f = c10DemoInfo.filename) :=
  c10_filename_registration emptyImgState c10DemoState
    (sBytes "photo.jpg.gz") 5 2 0 (sBytes "img_3") c10DemoInfo rfl rfl
    (by decide) (by decide)

/-- The state after one chunk (index 0 of 2) arrives with no registered
filename: the reception is created with the default name. -/
def c10BadState : ImgState :=
  (processImagePacket (fun _ => none) 0 emptyImgState
    (mkChunkPacket (sBytes "AA") 2 0)).2

/-- C10 counterexample: with no registered filename the default stored —
and used in the retransmission command — is `image_2.jpg.gz`, not the
`image_2.jpg.gz.chunked` the claim names. -/
theorem c10_counterexample :
    (findOrCreateImageReception 0 emptyImgState 2 0).2.2.1.filename =
      sBytes "image_2.jpg.gz" ∧
    sBytes "image_2.jpg.gz" ≠ sBytes "image_2.jpg.gz.chunked" ∧
    writesOf (requestRetransmission true c10BadState (sBytes "img_2") none).1 =
      [sBytes "RETRANSMIT image_2.jpg.gz 1" ++ [10]] := by
  refine ⟨by decide, by decide, by decide⟩

/-! ### C2: completion of a full reception, in any arrival order -/

/-- The payload the completion event must carry: chunks in index order with
trailing `=` stripped from every chunk except the last. -/
def strippedConcat (ps : Nat → List Nat) (n : Nat) : List Nat :=
  ((List.range n).map
    (fun i => if i < n - 1 then stripTrailingEq (ps i) else ps i)).flatten

theorem mapLookup_payload {done : List Nat} {ps : Nat → List Nat} {i : Nat}
    (hi : i ∈ done) :
    mapLookup (done.map (fun k => (k, ps k))) i = some (ps i) := by
  induction done with
  | nil => simp at hi
  | cons a t ih =>
    simp only [List.map_cons, mapLookup]
    by_cases ha : a = i
    · rw [if_pos ha, ha]
    · rw [if_neg ha]
      refine ih ?_
      rcases List.mem_cons.mp hi with h | h
      · exact absurd h.symm ha
      · exact h

theorem mapSet_fresh {done : List Nat} {ps : Nat → List Nat} {j : Nat}
    (v : List Nat) (hj : j ∉ done) :
    mapSet (done.map (fun k => (k, ps k))) j v =
      done.map (fun k => (k, ps k)) ++ [(j, v)] := by
  induction done with
  | nil => rfl
  | cons a t ih =>
    simp only [List.map_cons, mapSet, List.cons_append]
    rw [if_neg (by simp at hj; omega)]
    rw [ih (by simp at hj; tauto)]

theorem mapSet_single {α β : Type} [DecidableEq α] (k : α) (x v : β) :
    mapSet [(k, x)] k v = [(k, v)] := by
  simp [mapSet]

theorem mapDelete_single {α β : Type} [DecidableEq α] (k : α) (x : β) :
    mapDelete [(k, x)] k = [] := by
  simp [mapDelete]

theorem reconstructData_go_ok (total : Nat) (pbuf : List (Nat × List Nat))
    (ps : Nat → List Nat)
    (h : ∀ i, i < total → mapLookup pbuf i = some (ps i)) :
    ∀ fuel i, i + fuel = total →
      reconstructData.go total pbuf i fuel =
        .ok (((List.range' i fuel).map
          (fun k => if k < total - 1 then stripTrailingEq (ps k) else ps k)).flatten) := by
  intro fuel
  induction fuel with
  | zero => intro i _; simp [reconstructData.go]
  | succ fuel ih =>
    intro i hi
    unfold reconstructData.go
    rw [h i (by omega)]
    rw [ih (i + 1) (by omega)]
    simp [List.range'_succ]

theorem reconstructData_ok (total : Nat) (pbuf : List (Nat × List Nat))
    (ps : Nat → List Nat)
    (h : ∀ i, i < total → mapLookup pbuf i = some (ps i)) :
    reconstructData total pbuf = .ok (strippedConcat ps total) := by
  unfold reconstructData strippedConcat
  rw [reconstructData_go_ok total pbuf ps h total 0 (by omega)]
  rw [List.range_eq_range']

theorem artifactsOf_append (a b : List Ev) :
    artifactsOf (a ++ b) = artifactsOf a ++ artifactsOf b := by
  unfold artifactsOf
  exact List.filterMap_append _ _ _

theorem artifactsOf_log_cons (m : Msg) (s : String) (t : List Ev) :
    artifactsOf (Ev.log m s :: t) = artifactsOf t := rfl

theorem artifactsOf_nil : artifactsOf [] = [] := rfl

theorem artifactsOf_ite (c : Prop) [Decidable c] (a b : List Ev) :
    artifactsOf (if c then a else b) =
      if c then artifactsOf a else artifactsOf b :=
  apply_ite artifactsOf c a b

/-- The reception record while the indices `done` (in arrival order) have
been stored for a declared total of `n`. -/
def c2Info (fnm : List Nat) (stTime now n : Nat) (done : List Nat) :
    ImageInfo :=
  { totalChunks := n, receivedChunks := done, startTime := stTime,
    lastPacketTime := now, retransmitAttempts := 0, filename := fnm }

/-- The single-reception state reached after the indices `done` (in
arrival order) have been stored for a declared total of `n`. -/
def c2State (cf : Option (List Nat)) (id fnm : List Nat)
    (stTime now n : Nat) (ps : Nat → List Nat) (done : List Nat) : ImgState :=
  ⟨[(id, c2Info fnm stTime now n done)],
   [(id, done.map (fun k => (k, ps k)))], cf⟩

theorem c2State_find (cf : Option (List Nat)) (id fnm : List Nat)
    (stTime now n : Nat) (ps : Nat → List Nat) (done : List Nat) :
    (c2State cf id fnm stTime now n ps done).imageReceptions.find?
      (fun e => e.2.totalChunks == n) =
      some (id, c2Info fnm stTime now n done) := by
  unfold c2State
  refine List.find?_cons_of_pos _ ?_
  simp [c2Info]

/-- Delivering a fresh chunk `j` before the reception is full: the chunk
is stored, no completion event fires. -/
theorem c2_deliver_mid (gz : List Nat → Option (List Nat))
    (cf : Option (List Nat)) (id fnm : List Nat) (stTime now n : Nat)
    (ps : Nat → List Nat) (done : List Nat) (j : Nat)
    (hn4 : n < 10000) (hj : j < n) (hpj : ps j ≠ []) (hjd : j ∉ done)
    (hfull : done.length + 1 ≠ n) :
    (processImagePacket gz now (c2State cf id fnm stTime now n ps done)
        (mkChunkPacket (ps j) n j)).2 =
      c2State cf id fnm stTime now n ps (done ++ [j]) ∧
    artifactsOf (processImagePacket gz now
      (c2State cf id fnm stTime now n ps done)
      (mkChunkPacket (ps j) n j)).1 = [] := by
  unfold processImagePacket
  rw [parse_mkChunkPacket hpj (by omega) hn4 hj]
  simp only []
  rw [findOrCreate_found (c2State_find cf id fnm stTime now n ps done)]
  simp only []
  have hcont : ((c2Info fnm stTime now n done).receivedChunks).contains j =
      false := by
    simpa [c2Info] using hjd
  rw [hcont]
  simp only [Bool.false_eq_true, if_false]
  have hpb : mapLookup
      (c2State cf id fnm stTime now n ps done).imagePacketBuffer id =
      some (done.map (fun k => (k, ps k))) := by
    simp [c2State, mapLookup]
  rw [hpb]
  simp only [Option.getD_some]
  have hstore : storeChunk now (c2State cf id fnm stTime now n ps done) id
      (c2Info fnm stTime now n done) (List.map (fun k => (k, ps k)) done) j
      (ps j) = c2State cf id fnm stTime now n ps (done ++ [j]) := by
    unfold storeChunk c2State c2Info
    simp [mapSet_single, mapSet_fresh (ps j) hjd, List.map_append]
  rw [hstore]
  have hl : (c2Info fnm stTime now n done).receivedChunks.length + 1 ≠ n := by
    simp only [c2Info]
    omega
  rw [if_neg hl]
  constructor
  · rfl
  · rw [artifactsOf_append, artifactsOf_ite]
    simp [artifactsOf]

/-- Completing a full reception: the reconstruction succeeds, the payload
is the index-ordered padding-stripped concatenation, and both tables drop
the reception. -/
theorem c2_complete_full (gz : List Nat → Option (List Nat))
    (cf : Option (List Nat)) (id fnm : List Nat) (stTime now n : Nat)
    (ps : Nat → List Nat) (full : List Nat) (bytes jpg : List Nat)
    (hcov : ∀ i, i < n → i ∈ full)
    (hb64 : checkB64Strict (strippedConcat ps n) = true)
    (hatob : atob (strippedConcat ps n) = some bytes)
    (hgz : gz bytes = some jpg) :
    completeImageReception gz (c2State cf id fnm stTime now n ps full) id =
      ((if bytes.length < 2 || bytes.getD 0 0 ≠ 31 || bytes.getD 1 0 ≠ 139
        then [Ev.log .gzipMagicWarn "warning"] else []) ++
       [.log (.completedMsg id) "response",
        .artifact id (strippedConcat ps n) bytes (some jpg),
        .log (.cleanupMsg id) "info"],
       ⟨[], [], cf⟩) := by
  unfold completeImageReception
  have h1 : mapLookup (c2State cf id fnm stTime now n ps full).imageReceptions
      id = some (c2Info fnm stTime now n full) := by
    simp [c2State, mapLookup]
  have h2 : mapLookup
      (c2State cf id fnm stTime now n ps full).imagePacketBuffer id =
      some (full.map (fun k => (k, ps k))) := by
    simp [c2State, mapLookup]
  rw [h1, h2]
  simp only []
  have h3 : reconstructData (c2Info fnm stTime now n full).totalChunks
      (full.map (fun k => (k, ps k))) = .ok (strippedConcat ps n) := by
    have : (c2Info fnm stTime now n full).totalChunks = n := rfl
    rw [this]
    exact reconstructData_ok n _ ps
      (fun i hi => mapLookup_payload (hcov i hi))
  rw [h3]
  simp only []
  rw [hb64]
  simp only [Bool.not_true, Bool.false_eq_true, if_false]
  rw [hatob]
  simp only []
  rw [hgz]
  simp only [c2State, mapDelete_single]

/-- Delivering the last missing chunk: completion fires once, the artifact
carries the index-ordered padding-stripped concatenation, and both tables
drop the reception. -/
theorem c2_deliver_last (gz : List Nat → Option (List Nat))
    (cf : Option (List Nat)) (id fnm : List Nat) (stTime now n : Nat)
    (ps : Nat → List Nat) (done : List Nat) (j : Nat) (bytes jpg : List Nat)
    (hn4 : n < 10000) (hj : j < n) (hpj : ps j ≠ []) (hjd : j ∉ done)
    (hfull : done.length + 1 = n)
    (hcov : ∀ i, i < n → i ∈ done ++ [j])
    (hb64 : checkB64Strict (strippedConcat ps n) = true)
    (hatob : atob (strippedConcat ps n) = some bytes)
    (hgz : gz bytes = some jpg) :
    (processImagePacket gz now (c2State cf id fnm stTime now n ps done)
        (mkChunkPacket (ps j) n j)).2 = ⟨[], [], cf⟩ ∧
    artifactsOf (processImagePacket gz now
      (c2State cf id fnm stTime now n ps done)
      (mkChunkPacket (ps j) n j)).1 = [(id, strippedConcat ps n)] := by
  unfold processImagePacket
  rw [parse_mkChunkPacket hpj (by omega) hn4 hj]
  simp only []
  rw [findOrCreate_found (c2State_find cf id fnm stTime now n ps done)]
  simp only []
  have hcont : ((c2Info fnm stTime now n done).receivedChunks).contains j =
      false := by
    simpa [c2Info] using hjd
  rw [hcont]
  simp only [Bool.false_eq_true, if_false]
  have hpb : mapLookup
      (c2State cf id fnm stTime now n ps done).imagePacketBuffer id =
      some (done.map (fun k => (k, ps k))) := by
    simp [c2State, mapLookup]
  rw [hpb]
  simp only [Option.getD_some]
  have hstore : storeChunk now (c2State cf id fnm stTime now n ps done) id
      (c2Info fnm stTime now n done) (List.map (fun k => (k, ps k)) done) j
      (ps j) = c2State cf id fnm stTime now n ps (done ++ [j]) := by
    unfold storeChunk c2State c2Info
    simp [mapSet_single, mapSet_fresh (ps j) hjd, List.map_append]
  rw [hstore]
  have hl : (c2Info fnm stTime now n done).receivedChunks.length + 1 = n := by
    simp only [c2Info]
    omega
  rw [if_pos hl]
  rw [c2_complete_full gz cf id fnm stTime now n ps (done ++ [j]) bytes jpg
    hcov hb64 hatob hgz]
  constructor
  · rfl
  · simp only [artifactsOf_append, artifactsOf_ite, artifactsOf]
    split <;> split <;> simp
/-- Running the remaining deliveries of a reception in progress: the state
threads through `c2State`, completion fires exactly once at the last
chunk, and the tables end empty. -/
theorem c2_run_invariant (gz : List Nat → Option (List Nat))
    (cf : Option (List Nat)) (id fnm : List Nat) (stTime now n : Nat)
    (ps : Nat → List Nat) (bytes jpg : List Nat)
    (hn4 : n < 10000)
    (hps : ∀ i, i < n → ps i ≠ [])
    (hb64 : checkB64Strict (strippedConcat ps n) = true)
    (hatob : atob (strippedConcat ps n) = some bytes)
    (hgz : gz bytes = some jpg) :
    ∀ rest done, rest ≠ [] →
      (done ++ rest).Nodup →
      (∀ i ∈ done ++ rest, i < n) →
      (done ++ rest).length = n →
      (∀ i, i < n → i ∈ done ++ rest) →
      (runImagePackets gz now (c2State cf id fnm stTime now n ps done)
        (rest.map (fun i => mkChunkPacket (ps i) n i))).2 = ⟨[], [], cf⟩ ∧
      artifactsOf (runImagePackets gz now
        (c2State cf id fnm stTime now n ps done)
        (rest.map (fun i => mkChunkPacket (ps i) n i))).1 =
        [(id, strippedConcat ps n)] := by
  intro rest
  induction rest with
  | nil => intro done h; exact absurd rfl h
  | cons j rest' ih =>
    intro done _ hnd hlt hlen hcov
    have hjn : j < n := hlt j (by simp)
    have hjd : j ∉ done := by
      have hdj : done.Disjoint (j :: rest') :=
        List.disjoint_of_nodup_append hnd
      intro hin
      exact hdj hin (by simp)
    simp only [List.map_cons, runImagePackets]
    cases rest' with
    | nil =>
      have hfull : done.length + 1 = n := by
        simp only [List.length_append, List.length_cons, List.length_nil]
          at hlen
        omega
      have hstep := c2_deliver_last gz cf id fnm stTime now n ps done j bytes
        jpg hn4 hjn (hps j hjn) hjd hfull
        (fun i hi => by simpa using hcov i hi) hb64 hatob hgz
      simp only [List.map_nil, runImagePackets]
      rw [hstep.1]
      constructor
      · rfl
      · rw [artifactsOf_append, hstep.2]
        simp [artifactsOf]
    | cons k rest'' =>
      have hfull : done.length + 1 ≠ n := by
        simp only [List.length_append, List.length_cons, List.length_nil]
          at hlen ⊢
        omega
      have hstep := c2_deliver_mid gz cf id fnm stTime now n ps done j hn4
        hjn (hps j hjn) hjd hfull
      rw [hstep.1]
      have hre : done ++ j :: k :: rest'' = (done ++ [j]) ++ k :: rest'' := by
        rw [List.append_cons]
      rw [hre] at hnd hlt hlen hcov
      have hrec := ih (done ++ [j]) (by simp) hnd hlt hlen hcov
      constructor
      · exact hrec.1
      · rw [artifactsOf_append, hstep.2, hrec.2]
        rfl

/-- The image id the first arriving chunk determines. -/
def c2FirstId (n now j0 : Nat) : List Nat :=
  if j0 = 0 then sBytes "img_" ++ natDigits n
  else sBytes "img_" ++ natDigits n ++ sBytes "_" ++ natDigits now

/-- The filename the reception stores at creation. -/
def c2Fnm (cf : Option (List Nat)) (n : Nat) : List Nat :=
  cf.getD (sBytes "image_" ++ natDigits n ++ sBytes ".jpg.gz")

theorem findOrCreate_new {st : ImgState} {total cur now : Nat}
    (hfind : st.imageReceptions.find? (fun e => e.2.totalChunks == total) =
      none) :
    findOrCreateImageReception now st total cur =
      ([.log (.startRecv (if cur = 0 then sBytes "img_" ++ natDigits total
          else sBytes "img_" ++ natDigits total ++ sBytes "_" ++ natDigits now)
          total) "info"],
       (if cur = 0 then sBytes "img_" ++ natDigits total
        else sBytes "img_" ++ natDigits total ++ sBytes "_" ++ natDigits now),
       { totalChunks := total, receivedChunks := [], startTime := now,
         lastPacketTime := now, retransmitAttempts := 0,
         filename := st.currentImageFilename.getD
           (sBytes "image_" ++ natDigits total ++ sBytes ".jpg.gz") },
       [],
       { st with
         imageReceptions := mapSet st.imageReceptions
           (if cur = 0 then sBytes "img_" ++ natDigits total
            else sBytes "img_" ++ natDigits total ++ sBytes "_" ++
              natDigits now)
           { totalChunks := total, receivedChunks := [], startTime := now,
             lastPacketTime := now, retransmitAttempts := 0,
             filename := st.currentImageFilename.getD
               (sBytes "image_" ++ natDigits total ++ sBytes ".jpg.gz") },
         imagePacketBuffer := mapSet st.imagePacketBuffer
           (if cur = 0 then sBytes "img_" ++ natDigits total
            else sBytes "img_" ++ natDigits total ++ sBytes "_" ++
              natDigits now) [] }) := by
  unfold findOrCreateImageReception
  rw [hfind]

/-- The first chunk of a fresh reception (more chunks still to come):
the reception is created and the chunk stored, no completion. -/
theorem c2_first_mid (gz : List Nat → Option (List Nat))
    (cf : Option (List Nat)) (now n : Nat) (ps : Nat → List Nat) (j0 : Nat)
    (hn4 : n < 10000) (hj : j0 < n) (hp : ps j0 ≠ []) (hfull : 1 ≠ n) :
    (processImagePacket gz now ⟨[], [], cf⟩ (mkChunkPacket (ps j0) n j0)).2 =
      c2State cf (c2FirstId n now j0) (c2Fnm cf n) now now n ps [j0] ∧
    artifactsOf (processImagePacket gz now ⟨[], [], cf⟩
      (mkChunkPacket (ps j0) n j0)).1 = [] := by
  unfold processImagePacket
  rw [parse_mkChunkPacket hp (by omega) hn4 hj]
  simp only []
  rw [findOrCreate_new (by rfl)]
  simp only []
  rw [if_neg (by simp)]
  have hstore : ∀ idv : List Nat,
      storeChunk now
        ({ imageReceptions := mapSet ([] : List (List Nat × ImageInfo)) idv
             { totalChunks := n, receivedChunks := [], startTime := now,
               lastPacketTime := now, retransmitAttempts := 0,
               filename := cf.getD
                 (sBytes "image_" ++ natDigits n ++ sBytes ".jpg.gz") },
           imagePacketBuffer :=
             mapSet ([] : List (List Nat × List (Nat × List Nat))) idv [],
           currentImageFilename := cf } : ImgState) idv
        { totalChunks := n, receivedChunks := [], startTime := now,
          lastPacketTime := now, retransmitAttempts := 0,
          filename := cf.getD
            (sBytes "image_" ++ natDigits n ++ sBytes ".jpg.gz") } [] j0
        (ps j0) =
      c2State cf idv (c2Fnm cf n) now now n ps [j0] := by
    intro idv
    unfold storeChunk c2State c2Info c2Fnm
    simp [mapSet, mapSet_single]
  rw [if_neg (show ¬(([] : List Nat).length + 1 = n) by simp; omega)]
  rw [hstore]
  constructor
  · unfold c2FirstId
    rfl
  · simp [artifactsOf_append, artifactsOf_ite, artifactsOf]

/-- A single-chunk image (`total = 1`): the first chunk creates the
reception and completes it at once. -/
theorem c2_first_last (gz : List Nat → Option (List Nat))
    (cf : Option (List Nat)) (now : Nat) (ps : Nat → List Nat)
    (bytes jpg : List Nat) (hp : ps 0 ≠ [])
    (hb64 : checkB64Strict (strippedConcat ps 1) = true)
    (hatob : atob (strippedConcat ps 1) = some bytes)
    (hgz : gz bytes = some jpg) :
    (processImagePacket gz now ⟨[], [], cf⟩ (mkChunkPacket (ps 0) 1 0)).2 =
      ⟨[], [], cf⟩ ∧
    artifactsOf (processImagePacket gz now ⟨[], [], cf⟩
      (mkChunkPacket (ps 0) 1 0)).1 =
      [(c2FirstId 1 now 0, strippedConcat ps 1)] := by
  unfold processImagePacket
  rw [parse_mkChunkPacket hp (by omega) (by omega) (by omega)]
  simp only []
  rw [findOrCreate_new (by rfl)]
  simp only []
  rw [if_neg (by simp)]
  have hstore : ∀ idv : List Nat,
      storeChunk now
        ({ imageReceptions := mapSet ([] : List (List Nat × ImageInfo)) idv
             { totalChunks := 1, receivedChunks := [], startTime := now,
               lastPacketTime := now, retransmitAttempts := 0,
               filename := cf.getD
                 (sBytes "image_" ++ natDigits 1 ++ sBytes ".jpg.gz") },
           imagePacketBuffer :=
             mapSet ([] : List (List Nat × List (Nat × List Nat))) idv [],
           currentImageFilename := cf } : ImgState) idv
        { totalChunks := 1, receivedChunks := [], startTime := now,
          lastPacketTime := now, retransmitAttempts := 0,
          filename := cf.getD
            (sBytes "image_" ++ natDigits 1 ++ sBytes ".jpg.gz") } [] 0
        (ps 0) =
      c2State cf idv (c2Fnm cf 1) now now 1 ps [0] := by
    intro idv
    unfold storeChunk c2State c2Info c2Fnm
    simp [mapSet, mapSet_single]
  rw [if_pos (show (([] : List Nat).length + 1 = 1) by simp)]
  rw [hstore]
  simp only [ite_true]
  rw [c2_complete_full gz cf (sBytes "img_" ++ natDigits 1)
    (c2Fnm cf 1) now now 1 ps [0] bytes jpg
    (by intro i hi; simp; omega) hb64 hatob hgz]
  constructor
  · rfl
  · simp only [artifactsOf_append, artifactsOf_ite, c2FirstId]
    simp [artifactsOf]

/-- C2: for a reception with declared total `n > 0`, delivering all chunks
`0..n-1` — non-empty payloads with correct trailing metadata, in any
arrival order — produces exactly one completion artifact, whose payload is
the concatenation of the stored chunks strictly in index order with
trailing `=` stripped from every chunk except the last; afterwards the
reception and its chunk store are removed from both tables. The
reconstruction hypotheses say the concatenation is well-formed base64 and
the external gzip decompressor accepts the decoded bytes. -/
theorem c2_any_order_completion (gz : List Nat → Option (List Nat))
    (cf : Option (List Nat)) (now n : Nat) (ps : Nat → List Nat)
    (perm : List Nat) (bytes jpg : List Nat)
    (hn : 0 < n) (hn4 : n < 10000)
    (hnd : perm.Nodup) (hplen : perm.length = n) (hbd : ∀ i ∈ perm, i < n)
    (hps : ∀ i, i < n → ps i ≠ [])
    (hb64 : checkB64Strict (strippedConcat ps n) = true)
    (hatob : atob (strippedConcat ps n) = some bytes)
    (hgz : gz bytes = some jpg) :
    ∃ id,
      artifactsOf (runImagePackets gz now ⟨[], [], cf⟩
        (perm.map (fun i => mkChunkPacket (ps i) n i))).1 =
        [(id, strippedConcat ps n)] ∧
      (runImagePackets gz now ⟨[], [], cf⟩
        (perm.map (fun i => mkChunkPacket (ps i) n i))).2 = ⟨[], [], cf⟩ := by
  have hcov : ∀ i, i < n → i ∈ perm := by
    have h1 : perm.toFinset = Finset.range n := by
      apply Finset.eq_of_subset_of_card_le
      · intro x hx
        rw [List.mem_toFinset] at hx
        exact Finset.mem_range.mpr (hbd x hx)
      · rw [Finset.card_range, List.toFinset_card_of_nodup hnd, hplen]
    intro i hi
    have h2 : i ∈ perm.toFinset := by
      rw [h1]
      exact Finset.mem_range.mpr hi
    exact List.mem_toFinset.mp h2
  cases perm with
  | nil =>
    simp only [List.length_nil] at hplen
    omega
  | cons j0 rest =>
    refine ⟨c2FirstId n now j0, ?_⟩
    by_cases hone : n = 1
    · subst hone
      have hj0 : j0 = 0 := by
        have := hbd j0 (by simp)
        omega
      subst hj0
      have hre : rest = [] := by
        simp only [List.length_cons] at hplen
        exact List.length_eq_zero.mp (by omega)
      subst hre
      simp only [List.map_cons, List.map_nil, runImagePackets]
      have hfl := c2_first_last gz cf now ps bytes jpg (hps 0 (by omega))
        hb64 hatob hgz
      rw [hfl.1]
      constructor
      · rw [artifactsOf_append, hfl.2]
        simp [artifactsOf]
      · rfl
    · have hrest : rest ≠ [] := by
        intro h
        subst h
        simp only [List.length_cons, List.length_nil] at hplen
        omega
      simp only [List.map_cons, runImagePackets]
      have hfm := c2_first_mid gz cf now n ps j0 hn4 (hbd j0 (by simp))
        (hps j0 (hbd j0 (by simp))) (by omega)
      rw [hfm.1]
      have hinv := c2_run_invariant gz cf (c2FirstId n now j0) (c2Fnm cf n)
        now now n ps bytes jpg hn4 hps hb64 hatob hgz rest [j0] hrest
        hnd hbd hplen hcov
      constructor
      · rw [artifactsOf_append, hfm.2, hinv.2]
        rfl
      · exact hinv.1

theorem c2_any_order_completion_witness :
    ∃ id,
      artifactsOf (runImagePackets (fun _ => some [31]) 5 ⟨[], [], none⟩
        ([1, 0].map (fun i => mkChunkPacket (sBytes "QUJD") 2 i))).1 =
        [(id, strippedConcat (fun _ => sBytes "QUJD") 2)] ∧
      (runImagePackets (fun _ => some [31]) 5 ⟨[], [], none⟩
        ([1, 0].map (fun i => mkChunkPacket (sBytes "QUJD") 2 i))).2 =
        ⟨[], [], none⟩ :=
  c2_any_order_completion (fun _ => some [31]) none 5 2
    (fun _ => sBytes "QUJD") [1, 0] [65, 66, 67, 65, 66, 67] [31]
    (by decide) (by decide) (by decide) (by decide) (by decide)
    (fun _ _ => (by decide : sBytes "QUJD" ≠ [])) (by decide) (by decide) rfl

/-! ### C1: chunk-boundary independence of the frame classifier -/

/-- Splitting a valid SEND image-chunk frame across two deliveries changes
the extracted frames: on the first fragment the SEND branch's fallback
(newline search, then the whole sub-1024-byte buffer) extracts the
fragment alone as an image packet, while the joined stream — itself a
single well-formed chunk frame, as the `parseChunkMeta` conjunct shows —
is extracted whole. -/
theorem c1_counterexample :
    parseChunkMeta (sBytes "SENDAB00010000") =
      ChunkParse.chunk 1 0 (sBytes "AB") ∧
    (feedDeliveries [] [sBytes "SENDAB00010000"]).1 =
      [Frame.image (sBytes "SENDAB00010000")] ∧
    (feedDeliveries [] [sBytes "SENDAB0", sBytes "0010000"]).1 =
      [Frame.image (sBytes "SENDAB0")] ∧
    (feedDeliveries [] [sBytes "SENDAB0", sBytes "0010000"]).1 ≠
      (feedDeliveries [] [sBytes "SENDAB00010000"]).1 := by
  have h1 : classifyStep (sBytes "SENDAB00010000") =
      .emit (some (.image (sBytes "SENDAB00010000"))) [] := by decide
  have h2 : classifyStep (sBytes "SENDAB0") =
      .emit (some (.image (sBytes "SENDAB0"))) [] := by decide
  have h3 : classifyStep (sBytes "0010000") = .wait := by decide
  have h0 : classifyStep ([] : List Nat) = .wait := by decide
  have hpb0 : processBuffer [] = ⟨[], [], false⟩ := processBuffer_wait h0
  have hpbJ : processBuffer (sBytes "SENDAB00010000") =
      ⟨[Frame.image (sBytes "SENDAB00010000")], [], false⟩ := by
    rw [processBuffer_emit h1, hpb0]
    rfl
  have hpbA : processBuffer (sBytes "SENDAB0") =
      ⟨[Frame.image (sBytes "SENDAB0")], [], false⟩ := by
    rw [processBuffer_emit h2, hpb0]
    rfl
  have hpbB : processBuffer (sBytes "0010000") =
      ⟨[], sBytes "0010000", false⟩ := processBuffer_wait h3
  have hsingle : (feedDeliveries [] [sBytes "SENDAB00010000"]).1 =
      [Frame.image (sBytes "SENDAB00010000")] := by
    simp [feedDeliveries, processReceivedData, hpbJ]
  have hsplit : (feedDeliveries [] [sBytes "SENDAB0", sBytes "0010000"]).1 =
      [Frame.image (sBytes "SENDAB0")] := by
    simp [feedDeliveries, processReceivedData, hpbA, hpbB]
  exact ⟨by decide, hsingle, hsplit, by rw [hsingle, hsplit]; decide⟩

/-- A fixed-size binary telemetry frame: its first four bytes are one of
the fixed-size telemetry tags and its length is exactly that tag's frame
size from the classifier's size table. -/
def isFixedFrame (F : List Nat) : Bool :=
  fixedTelemetryTable.any fun q => F.take 4 == q.1 && F.length == q.2

/-- The per-tag facts about the fixed-size table that the boundary-
independence proof uses: each tag is four clean identifier bytes distinct
from SEND/RETX/POLL, is a known binary identifier, has its table size as
`fixedPacketSize`, the size exceeds the tag length, and no tag byte is a
newline or carriage return. -/
theorem fixedTable_facts : ∀ q ∈ fixedTelemetryTable,
    q.1.length = 4 ∧ fixedPacketSize q.1 = q.2 ∧ 4 < q.2 ∧
    q.1 ∈ binaryIdentifiers ∧ q.1 ≠ sBytes "SEND" ∧ q.1 ≠ sBytes "RETX" ∧
    q.1 ≠ sBytes "POLL" ∧ (∀ c ∈ q.1, c ≠ 0 ∧ jsWhitespace c = false) ∧
    (∀ c ∈ q.1, ¬(c = 10 ∨ c = 13)) := by decide

/-- A fixed-size telemetry frame is longer than its 4-byte tag. -/
theorem isFixedFrame_length {F : List Nat} (h : isFixedFrame F = true) :
    4 < F.length := by
  unfold isFixedFrame at h
  rw [List.any_eq_true] at h
  obtain ⟨q, hq, hqp⟩ := h
  rw [Bool.and_eq_true, beq_iff_eq, beq_iff_eq] at hqp
  obtain ⟨-, -, h4, -⟩ := fixedTable_facts q hq
  omega

/-- A buffer starting with a complete fixed-size telemetry frame makes the
classifier emit exactly that frame as a binary packet and keep the rest. -/
theorem classifyStep_fixedFrame {F : List Nat} (rest : List Nat)
    (hF : isFixedFrame F = true) :
    classifyStep (F ++ rest) = .emit (some (.binary F)) rest := by
  unfold isFixedFrame at hF
  rw [List.any_eq_true] at hF
  obtain ⟨q, hq, hqp⟩ := hF
  rw [Bool.and_eq_true, beq_iff_eq, beq_iff_eq] at hqp
  obtain ⟨htag, hlen⟩ := hqp
  obtain ⟨hql, hsz, h4, hbin, hS, hR, hP, hchars, -⟩ := fixedTable_facts q hq
  have h4F : 4 ≤ F.length := by omega
  have htake : (F ++ rest).take 4 = q.1 := by
    rw [List.take_append_of_le_length h4F, htag]
  have hid : identOf (F ++ rest) = q.1 := identOf_eq_of_take4 htake hchars
  have hsize : getPacketSize (identOf (F ++ rest)) (F ++ rest) =
      Int.ofNat q.2 := by
    rw [hid]
    unfold getPacketSize
    rw [if_neg hP, if_neg hR, hsz]
  unfold classifyStep
  rw [if_neg (by rw [hid]; rintro ⟨-, h | h⟩; exact hS h; exact hR h)]
  unfold classifyBinary
  rw [if_pos ⟨by simp only [List.length_append]; omega, by rw [hid]; exact hbin⟩]
  dsimp only
  rw [hsize]
  rw [if_pos ⟨Int.ofNat_pos.mpr (by omega),
    by simp only [List.length_append]
       exact Int.ofNat_le.mpr (by omega)⟩]
  rw [show (Int.ofNat q.2).toNat = q.2 from rfl, ← hlen,
    List.take_left, List.drop_left]

/-- A proper front fragment of a fixed-size telemetry frame makes the
classifier wait for more bytes: with at least the 4-byte tag buffered the
size check fails (the fixed size exceeds the fragment), and with less
than the tag buffered no branch applies and no newline is found. -/
theorem classifyStep_fixedPartial {F : List Nat} {k : Nat}
    (hF : isFixedFrame F = true) (hk : k < F.length) :
    classifyStep (F.take k) = .wait := by
  unfold isFixedFrame at hF
  rw [List.any_eq_true] at hF
  obtain ⟨q, hq, hqp⟩ := hF
  rw [Bool.and_eq_true, beq_iff_eq, beq_iff_eq] at hqp
  obtain ⟨htag, hlen⟩ := hqp
  obtain ⟨hql, hsz, h4, hbin, hS, hR, hP, hchars, hnl⟩ := fixedTable_facts q hq
  have hlenk : (F.take k).length = k := by
    rw [List.length_take]
    omega
  by_cases h4k : 4 ≤ k
  · have htake : (F.take k).take 4 = q.1 := by
      rw [List.take_take, Nat.min_eq_left h4k, htag]
    have hid : identOf (F.take k) = q.1 := identOf_eq_of_take4 htake hchars
    have hsize : getPacketSize (identOf (F.take k)) (F.take k) =
        Int.ofNat q.2 := by
      rw [hid]
      unfold getPacketSize
      rw [if_neg hP, if_neg hR, hsz]
    unfold classifyStep
    rw [if_neg (by rw [hid]; rintro ⟨-, h | h⟩; exact hS h; exact hR h)]
    unfold classifyBinary
    rw [if_pos ⟨by omega, by rw [hid]; exact hbin⟩]
    dsimp only
    rw [hsize]
    rw [if_neg (by
      rintro ⟨-, hle⟩
      rw [hlenk] at hle
      have : q.2 ≤ k := Int.ofNat_le.mp hle
      omega)]
    exact if_pos (Int.ofNat_pos.mpr (by omega))
  · have hsub : F.take k = q.1.take k := by
      rw [← htag, List.take_take, Nat.min_eq_left (by omega)]
    rw [hsub]
    have hk4 : k < 4 := by omega
    fin_cases hq <;> interval_cases k <;> decide

/-- Draining the classifier on any front portion of a concatenation of
fixed-size telemetry frames emits exactly the whole frames it covers, in
order, and leaves the trailing fragment buffered without overflow. -/
theorem processBuffer_fixedStream (L : List (List Nat)) :
    ∀ b t : List Nat, (∀ F ∈ L, isFixedFrame F = true) →
    b ++ t = L.flatten →
    ∃ L1 L2 p, L = L1 ++ L2 ∧ b = L1.flatten ++ p ∧ p ++ t = L2.flatten ∧
      (∀ F L2', L2 = F :: L2' → p.length < F.length) ∧
      processBuffer b = ⟨L1.map Frame.binary, p, false⟩ := by
  induction L with
  | nil =>
    intro b t _ heq
    have hb : b = [] ∧ t = [] := by
      rw [List.flatten_nil] at heq
      exact List.append_eq_nil.mp heq
    refine ⟨[], [], [], rfl, by simp [hb.1], by simp [hb.2], ?_, ?_⟩
    · intro F L2' h
      cases h
    · rw [hb.1]
      exact processBuffer_wait (by decide)
  | cons F L' ih =>
    intro b t hfix heq
    rw [List.flatten_cons] at heq
    rcases Nat.lt_or_ge b.length F.length with hlt | hge
    · have hbF : b = F.take b.length := by
        have h1 := congrArg (List.take b.length) heq
        rw [List.take_left, List.take_append_of_le_length (Nat.le_of_lt hlt)] at h1
        exact h1
      have hwait : classifyStep b = .wait := by
        rw [hbF]
        exact classifyStep_fixedPartial (hfix F (List.mem_cons_self F L')) hlt
      refine ⟨[], F :: L', b, rfl, by simp, by rw [List.flatten_cons]; exact heq,
        ?_, processBuffer_wait hwait⟩
      intro G L2' hG
      injection hG with h1 h2
      rw [← h1]
      exact hlt
    · have htk : b.take F.length = F := by
        have h1 := congrArg (List.take F.length) heq
        rw [List.take_append_of_le_length hge, List.take_left] at h1
        exact h1
      have hbsplit : F ++ b.drop F.length = b := by
        conv_rhs => rw [← List.take_append_drop F.length b]
        rw [htk]
      have hrest : b.drop F.length ++ t = L'.flatten := by
        have h2 := congrArg (List.drop F.length) heq
        rw [List.drop_append_of_le_length hge, List.drop_left] at h2
        exact h2
      have hpb : processBuffer b =
          { processBuffer (b.drop F.length) with
            frames := Frame.binary F ::
              (processBuffer (b.drop F.length)).frames } := by
        conv_lhs => rw [← hbsplit]
        rw [processBuffer_emit (classifyStep_fixedFrame (b.drop F.length)
          (hfix F (List.mem_cons_self F L')))]
        rfl
      obtain ⟨L1, L2, p, hL, hb, hpt, hproper, hpb'⟩ :=
        ih (b.drop F.length) t (fun G hG => hfix G (List.mem_cons_of_mem F hG))
          hrest
      refine ⟨F :: L1, L2, p, by rw [List.cons_append, hL], ?_, hpt, hproper, ?_⟩
      · rw [List.flatten_cons, List.append_assoc, ← hb, hbsplit]
      · rw [hpb, hpb']
        rfl

/-- Feeding any sequence of deliveries whose bytes, appended to the
buffered fragment, form the remainder of a fixed-size telemetry frame
stream extracts exactly the remaining frames in order and ends with an
empty buffer. -/
theorem feedDeliveries_fixedStream (D : List (List Nat)) :
    ∀ (L : List (List Nat)) (p : List Nat),
      (∀ F ∈ L, isFixedFrame F = true) →
      p ++ D.flatten = L.flatten →
      (∀ F L', L = F :: L' → p.length < F.length) →
      feedDeliveries p D = (L.map Frame.binary, []) := by
  induction D with
  | nil =>
    intro L p hfix heq hproper
    cases L with
    | nil =>
      rw [List.flatten_nil] at heq
      simp only [List.flatten_nil, List.append_nil] at heq
      simp [feedDeliveries, heq]
    | cons F L' =>
      exfalso
      have h1 := hproper F L' rfl
      have h2 := congrArg List.length heq
      simp only [List.flatten_cons, List.flatten_nil, List.append_nil,
        List.length_append] at h2
      omega
  | cons d ds ih =>
    intro L p hfix heq hproper
    rw [List.flatten_cons] at heq
    have heq' : (p ++ d) ++ ds.flatten = L.flatten := by
      rw [List.append_assoc]
      exact heq
    obtain ⟨L1, L2, p', hL, hb, hpt, hproper', hpb⟩ :=
      processBuffer_fixedStream L (p ++ d) ds.flatten hfix heq'
    have hfix2 : ∀ G ∈ L2, isFixedFrame G = true := fun G hG =>
      hfix G (by rw [hL]; exact List.mem_append_right L1 hG)
    have hrec := ih L2 p' hfix2 hpt hproper'
    have hstep : feedDeliveries p (d :: ds) =
        ((processBuffer (p ++ d)).frames ++
          (feedDeliveries (processBuffer (p ++ d)).buffer ds).1,
         (feedDeliveries (processBuffer (p ++ d)).buffer ds).2) := rfl
    rw [hstep, hpb]
    dsimp only
    rw [hrec]
    dsimp only
    rw [hL, List.map_append]

/-- C1 (amended): chunk-boundary independence holds for streams of
fixed-size binary telemetry frames. Feeding any split of a concatenation
of such frames to `processReceivedData` delivery by delivery extracts
exactly the frames in order with an empty final buffer — the same result
as the equivalent single delivery. (For streams containing SEND/RETX
image-chunk frames the property fails, as `c1_counterexample` shows: a
chunk frame split across deliveries is mis-extracted, because the image
branch's newline/whole-buffer fallback fires on the partial packet.) -/
theorem c1_fixed_stream_boundary_independence
    (L D : List (List Nat))
    (hfix : ∀ F ∈ L, isFixedFrame F = true)
    (hD : D.flatten = L.flatten) :
    feedDeliveries [] D = (L.map Frame.binary, []) ∧
    (feedDeliveries [] D).1 = (feedDeliveries [] [L.flatten]).1 := by
  have hproper0 : ∀ F L', L = F :: L' → ([] : List Nat).length < F.length := by
    intro F L' h
    have hm : F ∈ L := by
      rw [h]
      exact List.mem_cons_self F L'
    have h4 := isFixedFrame_length (hfix F hm)
    simp only [List.length_nil]
    omega
  have hmain := feedDeliveries_fixedStream D L [] hfix
    (by rw [List.nil_append]; exact hD) hproper0
  have hsingle := feedDeliveries_fixedStream [L.flatten] L [] hfix
    (by simp) hproper0
  exact ⟨hmain, by rw [hmain, hsingle]⟩

/-- A complete 16-byte GYRO frame with an arbitrary payload. -/
def c1F1 : List Nat :=
  sBytes "GYRO" ++ [1, 2, 3, 4, 5, 6, 7, 8, 9, 10, 11, 12]

/-- A complete 15-byte HOST frame with an arbitrary payload. -/
def c1F2 : List Nat :=
  sBytes "HOST" ++ [116, 101, 109, 112, 101, 115, 116, 45, 49, 50, 51]

theorem c1_fixed_stream_boundary_independence_witness :
    feedDeliveries [] [(c1F1 ++ c1F2).take 10, (c1F1 ++ c1F2).drop 10] =
      ([c1F1, c1F2].map Frame.binary, []) ∧
    (feedDeliveries [] [(c1F1 ++ c1F2).take 10, (c1F1 ++ c1F2).drop 10]).1 =
      (feedDeliveries [] [[c1F1, c1F2].flatten]).1 :=
  c1_fixed_stream_boundary_independence [c1F1, c1F2]
    [(c1F1 ++ c1F2).take 10, (c1F1 ++ c1F2).drop 10]
    (by decide) (by decide)
